import Mathlib

/-!
The indicator, strategy and session logic of stock-signal (`main.go`).

A shallow embedding of `calculateSMA`, `calculateFibonacci`, `simpleStrategy`,
`getSignal`, `fetchStockData` and the parameter checks and emitter loop of
`stockHandler`.

Modelling conventions.

* Prices (`float64` in the source) are exact rational numbers `ℚ`; the decimal
  literals of the source (`0.01`, `0.236`, `1.05`, ...) are the rationals they
  denote, and `5.0 / (24 * 60)` is `5 / 1440`. Arithmetic on them is exact.
* Where rounding decides a result, `calculateSMA64` is `calculateSMA` with every
  addition and division rounded to the nearest `float64` (`round64`).
* The division `math.Abs(currentPrice-level)/level` by a zero level follows
  IEEE 754 (`floatQuotient`): `NaN` for zero over zero, otherwise `+Inf` for the
  level `+0.0` and `-Inf` for the level `-0.0`. A rational level does not carry
  the sign of its zero: `nearCheck`, `nearLevel` and `simpleStrategy` read a
  zero level as `+0.0`, and `nearCheckSigned`, `nearLevelSigned` and
  `simpleStrategySigned` take the signs as an argument.
* A slice access with an index outside `0 .. len-1` is a run-time panic in Go.
  Functions that index a slice return `Option`, `none` being the panic.
* `getSignal` returns a `Outcome`: the Go result `(signal, nil)`, the Go result
  `(nil, err)`, or a run-time panic.
* `fetchStockData` is a function of what `http.Get` returns; the decoded body is
  a `GoValue`, and an unchecked type assertion on a value of another type is a
  panic.
* `int` has 64 bits; `time.Duration` arithmetic wraps modulo `2^64`, and
  `time.NewTicker` panics on a duration that is not positive.
* A session is a state changed by events: a firing of the ticker (one whole
  tick), a message read from the connection, a read error. The handler returns
  only when a read fails.
-/

namespace StockSignal

/-- The `StockData` struct: the close prices, oldest first. -/
structure StockData where
  Close : List ℚ
  deriving DecidableEq

/-- The `Signal` struct. -/
structure Signal where
  Symbol : String
  Action : String
  Target : ℚ
  CurrentPrice : ℚ
  deriving DecidableEq

/-- The `FibonacciRetracements` struct. -/
structure FibonacciRetracements where
  Level0 : ℚ
  Level236 : ℚ
  Level382 : ℚ
  Level500 : ℚ
  Level618 : ℚ
  Level764 : ℚ
  Level100 : ℚ
  deriving DecidableEq

/-- What a Go call that returns `(*T, error)` can do: return a value with a nil
error, return a non-nil error (with its message), or panic at run time. -/
inductive Outcome (α : Type) where
  | ok (a : α) : Outcome α
  | error (e : String) : Outcome α
  | panic : Outcome α
  deriving DecidableEq

/-- Slice indexing `s[i]` with a Go `int` index: `none` (a run-time panic) when
`i` is negative or not below `len(s)`. -/
def index (s : List ℚ) (i : Int) : Option ℚ :=
  if 0 ≤ i ∧ i < (s.length : Int) then s.get? i.toNat else none

/-- The loop `for i := start; i < len(Close); i++ { acc += Close[i] }`, started at
index `i` with accumulator `acc`. -/
def sumLoop (close : List ℚ) (i : Int) (acc : ℚ) : Option ℚ :=
  if i < (close.length : Int) then
    match index close i with
    | none => none
    | some v => sumLoop close (i + 1) (acc + v)
  else some acc
termination_by ((close.length : Int) - i).toNat
decreasing_by omega

/-- `calculateSMA` (main.go 149-165). -/
def calculateSMA (stockData : StockData) : Option (ℚ × ℚ) :=
  match sumLoop stockData.Close ((stockData.Close.length : Int) - 50) 0 with
  | none => none
  | some sum50 =>
    let sma50 := sum50 / 50
    match sumLoop stockData.Close ((stockData.Close.length : Int) - 200) 0 with
    | none => none
    | some sum200 =>
      let sma200 := sum200 / 200
      some (sma50, sma200)

/-- One iteration of the scan in `calculateFibonacci`: the two `if`s that update
`(high, low)` with `price`. -/
def scanStep (hl : ℚ × ℚ) (price : ℚ) : ℚ × ℚ :=
  let high := if price > hl.1 then price else hl.1
  let low := if price < hl.2 then price else hl.2
  (high, low)

/-- `calculateFibonacci` (main.go 167-190); `closePrices[0]` panics on an empty
slice. -/
def calculateFibonacci (closePrices : List ℚ) : Option FibonacciRetracements :=
  match index closePrices 0 with
  | none => none
  | some first =>
    let hl := closePrices.foldl scanStep (first, first)
    let high := hl.1
    let low := hl.2
    let diff := high - low
    some
      { Level0 := low
        Level236 := low + diff * (236 / 1000)
        Level382 := low + diff * (382 / 1000)
        Level500 := low + diff * (500 / 1000)
        Level618 := low + diff * (618 / 1000)
        Level764 := low + diff * (764 / 1000)
        Level100 := high }

/-- The value of a `float64` division as the comparison after it sees it: a
finite quotient, an infinity, or not-a-number. -/
inductive Quotient64 where
  | finite (q : ℚ) : Quotient64
  | posInf : Quotient64
  | negInf : Quotient64
  | nan : Quotient64

/-- The `float64` quotient `numerator / divisor` of two finite values. A zero
divisor is the negative zero `-0.0` exactly when `negZero` is set: zero over
zero is `NaN`, and any other numerator over zero is the infinity whose sign is
the product of the two signs. -/
def floatQuotient (numerator divisor : ℚ) (negZero : Bool) : Quotient64 :=
  if divisor = 0 then
    if numerator = 0 then .nan
    else if 0 < numerator then (if negZero then .negInf else .posInf)
    else (if negZero then .posInf else .negInf)
  else .finite (numerator / divisor)

/-- The comparison `q <= threshold` with a finite threshold: false for `NaN` and
`+Inf`, true for `-Inf`. -/
def Quotient64.le : Quotient64 → ℚ → Bool
  | .finite q, threshold => decide (q ≤ threshold)
  | .posInf, _ => false
  | .negInf, _ => true
  | .nan, _ => false

/-- The test `math.Abs(currentPrice-level)/level <= threshold` of
`simpleStrategy`, for a level whose zero, if it is zero, is `-0.0` exactly when
`negZero` is set. -/
def nearCheckSigned (currentPrice level : ℚ) (negZero : Bool) (threshold : ℚ) : Bool :=
  (floatQuotient |currentPrice - level| level negZero).le threshold

/-- The test `math.Abs(currentPrice-level)/level <= threshold` of
`simpleStrategy` on rational levels, whose zero stands for the float `+0.0`
(the negative zero is covered by `nearCheckSigned`). -/
def nearCheck (currentPrice level threshold : ℚ) : Bool :=
  nearCheckSigned currentPrice level false threshold

/-- The `for ... range` loop of `simpleStrategy` over the five interior levels,
with its `break`: the value of `nearLevel` after the loop. -/
def nearLoop (currentPrice threshold : ℚ) : List ℚ → Bool
  | [] => false
  | level :: rest =>
    if nearCheck currentPrice level threshold then true
    else nearLoop currentPrice threshold rest

/-- The flag `nearLevel` of `simpleStrategy` (main.go 197-205), with
`currentPrice = sma50`. -/
def nearLevel (sma50 : ℚ) (fibonacci : FibonacciRetracements) : Bool :=
  nearLoop sma50 (1 / 100)
    [fibonacci.Level236, fibonacci.Level382, fibonacci.Level500,
      fibonacci.Level618, fibonacci.Level764]

/-- The constant `predictionFactor := 5.0 / (24 * 60)`. -/
def predictionFactor : ℚ := 5 / (24 * 60)

/-- The variable `predictedPrice` of `simpleStrategy` (main.go 207-214). -/
def predictedPrice (sma50 sma200 : ℚ) : ℚ :=
  let currentPrice := sma50
  if sma50 > sma200 then currentPrice * (1 + predictionFactor)
  else if sma50 < sma200 then currentPrice * (1 - predictionFactor)
  else currentPrice

/-- `simpleStrategy` (main.go 192-226). -/
def simpleStrategy (sma50 sma200 : ℚ) (fibonacci : FibonacciRetracements) :
    String × ℚ :=
  let currentPrice := sma50
  let nearLevel := nearLevel sma50 fibonacci
  let predictedPrice := predictedPrice sma50 sma200
  if predictedPrice > currentPrice ∧ nearLevel = true then
    ("buy", predictedPrice * (105 / 100))
  else if predictedPrice < currentPrice ∧ nearLevel = true then
    ("sell", predictedPrice * (95 / 100))
  else ("hold", currentPrice)

/-- For each interior level, whether its value, when it is zero, is the negative
zero `-0.0` (a rational level alone does not tell the two zeros apart). -/
structure ZeroSigns where
  Level236 : Bool
  Level382 : Bool
  Level500 : Bool
  Level618 : Bool
  Level764 : Bool

/-- The loop of `simpleStrategy` over the interior levels, each with the sign of
its zero. -/
def nearLoopSigned (currentPrice threshold : ℚ) : List (ℚ × Bool) → Bool
  | [] => false
  | level :: rest =>
    if nearCheckSigned currentPrice level.1 level.2 threshold then true
    else nearLoopSigned currentPrice threshold rest

/-- The flag `nearLevel` of `simpleStrategy` (main.go 197-205) for levels given
with the signs of their zeros. -/
def nearLevelSigned (sma50 : ℚ) (fibonacci : FibonacciRetracements) (signs : ZeroSigns) :
    Bool :=
  nearLoopSigned sma50 (1 / 100)
    [(fibonacci.Level236, signs.Level236), (fibonacci.Level382, signs.Level382),
      (fibonacci.Level500, signs.Level500), (fibonacci.Level618, signs.Level618),
      (fibonacci.Level764, signs.Level764)]

/-- `simpleStrategy` (main.go 192-226) for levels given with the signs of their
zeros. -/
def simpleStrategySigned (sma50 sma200 : ℚ) (fibonacci : FibonacciRetracements)
    (signs : ZeroSigns) : String × ℚ :=
  let currentPrice := sma50
  let nearLevel := nearLevelSigned sma50 fibonacci signs
  let predictedPrice := predictedPrice sma50 sma200
  if predictedPrice > currentPrice ∧ nearLevel = true then
    ("buy", predictedPrice * (105 / 100))
  else if predictedPrice < currentPrice ∧ nearLevel = true then
    ("sell", predictedPrice * (95 / 100))
  else ("hold", currentPrice)

/-! ## `calculateSMA` in `float64` arithmetic -/

/-- `getSignal` (main.go 116-126), over the outcome of `fetchStockData`. -/
def getSignal (fetchStockData : String → Outcome StockData) (symbol : String) :
    Outcome Signal :=
  match fetchStockData symbol with
  | .error err => .error err
  | .panic => .panic
  | .ok stockData =>
    match calculateSMA stockData with
    | none => .panic
    | some (sma50, sma200) =>
      match calculateFibonacci stockData.Close with
      | none => .panic
      | some fibonacci =>
        match index stockData.Close ((stockData.Close.length : Int) - 1) with
        | none => .panic
        | some currentPrice =>
          .ok
            { Symbol := symbol
              Action := (simpleStrategy sma50 sma200 fibonacci).1
              Target := (simpleStrategy sma50 sma200 fibonacci).2
              CurrentPrice := currentPrice }

/-! ## The specification's words, for comparison -/

/-- The decision of the specification's Strategy Engine (section 4.3, steps 3
and 4), given the `nearLevel` flag. -/
def specDecide (SMA50 SMA200 : ℚ) (nearLevel : Bool) : String × ℚ :=
  let currentPrice := SMA50
  let predicted :=
    if SMA50 > SMA200 then SMA50 * (1 + 5 / 1440)
    else if SMA50 < SMA200 then SMA50 * (1 - 5 / 1440)
    else SMA50
  if predicted > currentPrice ∧ nearLevel = true then ("buy", predicted * (105 / 100))
  else if predicted < currentPrice ∧ nearLevel = true then ("sell", predicted * (95 / 100))
  else ("hold", SMA50)

/-- The `nearLevel` of the specification's Strategy Engine (section 4.3, step
2): `currentPrice` is within 1% relative distance of one of the five interior
levels, a zero level counting as not near. -/
def specNearLevel (currentPrice : ℚ) (fibonacci : FibonacciRetracements) : Bool :=
  decide (∃ level ∈ [fibonacci.Level236, fibonacci.Level382, fibonacci.Level500,
    fibonacci.Level618, fibonacci.Level764],
    level ≠ 0 ∧ |currentPrice - level| ≤ 1 / 100 * |level|)

/-- The last `n` entries of a series. -/
def lastN (n : Nat) (xs : List ℚ) : List ℚ := xs.drop (xs.length - n)

/-- The arithmetic mean of a list: its sum over its length. -/
def mean (xs : List ℚ) : ℚ := xs.sum / (xs.length : ℚ)


/-- The level of the specification's Indicator Calculator at fraction `p`:
`low + (high - low) * p`. -/
def specLevel (low high p : ℚ) : ℚ := low + (high - low) * p

/-- The seven levels of the specification, for
`p ∈ {0, 0.236, 0.382, 0.5, 0.618, 0.764, 1.0}`. -/
def specFibonacci (low high : ℚ) : FibonacciRetracements :=
  { Level0 := specLevel low high 0
    Level236 := specLevel low high (236 / 1000)
    Level382 := specLevel low high (382 / 1000)
    Level500 := specLevel low high (5 / 10)
    Level618 := specLevel low high (618 / 1000)
    Level764 := specLevel low high (764 / 1000)
    Level100 := specLevel low high 1 }

/-- The 200 points `v_i = 50 + 100 * i / 199`, rising linearly from 50 to 150. -/
def ramp : List ℚ := List.map (fun i : Nat => 50 + 100 * (i : ℚ) / 199) (List.range 200)

/-- A series of 199 closes, one short of the 200 that `calculateSMA` reads. -/
def shortSeries : StockData := ⟨List.replicate 199 100⟩

/-- A provider for which `AAA` has the history `ramp` and every other symbol
fails with an error. -/
def sampleFetch (symbol : String) : Outcome StockData :=
  if symbol = "AAA" then .ok ⟨ramp⟩ else .error "no data"

/-! ## The provider response and `fetchStockData` -/

/-- A value of type `interface{}` as `encoding/json` decodes it: JSON `null` is
`nil`, a number is a `float64`, an array is `[]interface{}` and an object is
`map[string]interface{}` (given by its key/value pairs). -/
inductive GoValue where
  | nil : GoValue
  | bool (b : Bool) : GoValue
  | float64 (x : ℚ) : GoValue
  | string (s : String) : GoValue
  | slice (xs : List GoValue) : GoValue
  | map (kvs : List (String × GoValue)) : GoValue

/-- The body of a provider response: bytes that `Decode` rejects, or a JSON
value. -/
inductive Body where
  | undecodable : Body
  | value (v : GoValue) : Body

/-- What `http.Get` returns: a non-nil error, or a response with its body. -/
inductive HttpResult where
  | error (err : String) : HttpResult
  | response (body : Body) : HttpResult

/-- The variable `data` after `json.NewDecoder(resp.Body).Decode(&data)`, whose
error is discarded: the decoded object, or the nil map when the body is not a
JSON object. A nil map is read like an empty one. -/
def decodeData : Body → List (String × GoValue)
  | .value (.map kvs) => kvs
  | _ => []

/-- Map indexing `m[key]` on a `map[string]interface{}`: the zero value `nil`
when the key is absent. -/
def mapIndex (m : List (String × GoValue)) (key : String) : GoValue :=
  match m.lookup key with
  | some v => v
  | none => .nil

/-- The type assertion `v.(map[string]interface{})`; `none` is its panic. -/
def assertMap : GoValue → Option (List (String × GoValue))
  | .map kvs => some kvs
  | _ => none

/-- The type assertion `v.([]interface{})`; `none` is its panic. -/
def assertSlice : GoValue → Option (List GoValue)
  | .slice xs => some xs
  | _ => none

/-- The type assertion `v.(float64)`; `none` is its panic. -/
def assertFloat64 : GoValue → Option ℚ
  | .float64 x => some x
  | _ => none

/-- The chain of lookups and unchecked assertions of main.go 138 that yields
`closePrices`; `none` when one of the assertions or one of the `[0]` panics. -/
def closePricesOf (data : List (String × GoValue)) : Option (List GoValue) :=
  match assertMap (mapIndex data "chart") with
  | none => none
  | some chart =>
    match assertSlice (mapIndex chart "result") with
    | none => none
    | some result =>
      match result.get? 0 with
      | none => none
      | some result0 =>
        match assertMap result0 with
        | none => none
        | some resultMap =>
          match assertMap (mapIndex resultMap "indicators") with
          | none => none
          | some indicators =>
            match assertSlice (mapIndex indicators "quote") with
            | none => none
            | some quote =>
              match quote.get? 0 with
              | none => none
              | some quote0 =>
                match assertMap quote0 with
                | none => none
                | some quoteMap => assertSlice (mapIndex quoteMap "close")

/-- The loop of main.go 140-144: every non-nil entry is asserted to be a
`float64` and appended to `stockData.Close`. -/
def appendLoop : List GoValue → List ℚ → Option (List ℚ)
  | [], close => some close
  | .nil :: rest, close => appendLoop rest close
  | v :: rest, close =>
    match assertFloat64 v with
    | none => none
    | some x => appendLoop rest (close ++ [x])

/-- The request URL `fmt.Sprintf(yahooFinanceAPI, symbol)`. -/
def yahooFinanceAPI (symbol : String) : String :=
  "https://query1.finance.yahoo.com/v8/finance/chart/" ++ symbol ++ "?interval=1d&range=2y"

/-- `fetchStockData` (main.go 128-147), over the behaviour of `http.Get`. -/
def fetchStockData (httpGet : String → HttpResult) (symbol : String) :
    Outcome StockData :=
  match httpGet (yahooFinanceAPI symbol) with
  | .error err => .error err
  | .response body =>
    match closePricesOf (decodeData body) with
    | none => .panic
    | some closePrices =>
      match appendLoop closePrices [] with
      | none => .panic
      | some close => .ok ⟨close⟩

/-! ## One tick of the emitter goroutine -/

/-- The surroundings of one tick: for the iteration at position `i` of the
symbol list, what `http.Get` does and whether `conn.WriteJSON` succeeds. -/
structure TickEnv where
  httpGet : Nat → String → HttpResult
  writeJSON : Nat → Signal → Bool

/-- Where the emitter goroutine stands: still in its `select` loop, returned, or
stopped by a run-time panic. -/
inductive EmitterStatus where
  | running : EmitterStatus
  | returned : EmitterStatus
  | panicked : EmitterStatus
  deriving DecidableEq

/-- What the emitter goroutine has done so far: the signals written to the
connection, the symbols `getSignal` was called for, and its status. -/
structure Emitter where
  sent : List Signal
  fetched : List String
  status : EmitterStatus

/-- The body `for _, symbol := range symbols` of one tick (main.go 91-101),
from position `i` on: an error of `getSignal` is logged and skipped
(`continue`), a failed `WriteJSON` ends the goroutine (`return`). -/
def tickLoop (env : TickEnv) : Nat → List String → Emitter → Emitter
  | _, [], st => st
  | i, symbol :: rest, st =>
    match getSignal (fetchStockData (env.httpGet i)) symbol with
    | .panic => { st with fetched := st.fetched ++ [symbol], status := .panicked }
    | .error _ => tickLoop env (i + 1) rest { st with fetched := st.fetched ++ [symbol] }
    | .ok signal =>
      if env.writeJSON i signal then
        tickLoop env (i + 1) rest
          { st with sent := st.sent ++ [signal], fetched := st.fetched ++ [symbol] }
      else { st with fetched := st.fetched ++ [symbol], status := .returned }

/-- The result of `getSignal` for the symbol at position `i` of a tick, as a
message to emit: the signal when the call succeeds, nothing otherwise. -/
def signalAt (env : TickEnv) (i : Nat) (symbol : String) : Option Signal :=
  match getSignal (fetchStockData (env.httpGet i)) symbol with
  | .ok signal => some signal
  | _ => none

/-- A well-formed provider response whose close-price array is `closes`. -/
def chartBody (closes : List GoValue) : Body :=
  .value (.map [("chart", .map [("result", .slice [.map [("indicators",
    .map [("quote", .slice [.map [("close", .slice closes)]])])]])])])

/-- A close-price array entry: `null` for a missing day, a number otherwise. -/
def closeEntry : Option ℚ → GoValue
  | none => .nil
  | some x => .float64 x

/-! ## `stockHandler`: parameter validation and the session -/

/-- Go's `strings.Split(s, ",")` on the characters of `s`: the pieces between
the commas, one more than there are commas (a single empty piece for the empty
string). -/
def splitComma : List Char → List (List Char)
  | [] => [[]]
  | c :: cs =>
    if c = ',' then [] :: splitComma cs
    else
      match splitComma cs with
      | [] => [[c]]
      | piece :: pieces => (c :: piece) :: pieces

/-- The slice `symbols := strings.Split(r.URL.Query().Get("symbols"), ",")`; a
missing parameter reads as the empty string. -/
def splitSymbols (symbolsParam : String) : List String :=
  (splitComma symbolsParam.data).map String.mk

/-- The value of a decimal digit, `none` for any other character. -/
def digitValue (c : Char) : Option Nat :=
  if '0' ≤ c ∧ c ≤ '9' then some (c.toNat - '0'.toNat) else none

/-- The digits of a decimal numeral read from the left, `none` when a
character is not a digit. -/
def parseDigits : List Char → Nat → Option Nat
  | [], n => some n
  | c :: cs, n =>
    match digitValue c with
    | none => none
    | some d => parseDigits cs (n * 10 + d)

/-- Go's `strconv.Atoi` with a 64-bit `int`: an optional sign followed by one or
more decimal digits, whose value fits in `int`; `none` when it returns an
error. -/
def Atoi (s : String) : Option Int :=
  match s.data with
  | [] => none
  | c :: cs =>
    if c = '-' then
      match cs with
      | [] => none
      | _ =>
        match parseDigits cs 0 with
        | none => none
        | some n => if n ≤ 2 ^ 63 then some (-(n : Int)) else none
    else if c = '+' then
      match cs with
      | [] => none
      | _ =>
        match parseDigits cs 0 with
        | none => none
        | some n => if n < 2 ^ 63 then some (n : Int) else none
    else
      match parseDigits (c :: cs) 0 with
      | none => none
      | some n => if n < 2 ^ 63 then some (n : Int) else none

/-- An `int64` result: the integer reduced modulo `2^64` into
`-2^63 .. 2^63 - 1`. -/
def wrapInt64 (x : Int) : Int := (x + 2 ^ 63) % 2 ^ 64 - 2 ^ 63

/-- The duration `time.Duration(tickerInterval) * time.Second`, in
nanoseconds. -/
def tickerDuration (tickerInterval : Int) : Int :=
  wrapInt64 (tickerInterval * 1000000000)

/-- How far `stockHandler` got after reading its parameters: it returned (the
deferred `conn.Close()` ran), it started the periodic emission for `symbols`
with a ticker of `interval` nanoseconds, or `time.NewTicker` panicked on a
non-positive duration. -/
inductive Phase where
  | closed : Phase
  | active (symbols : List String) (interval : Int) : Phase
  | panicked : Phase
  deriving DecidableEq

/-- The text messages written to the connection while the parameters are
checked, and the phase reached. -/
structure Startup where
  sent : List String
  phase : Phase
  deriving DecidableEq

/-- The start of `stockHandler` (main.go 58-82) after the upgrade: the checks of
`symbols` and `ticker` and the creation of the ticker. -/
def stockHandlerStart (symbolsParam tickerParam : String) : Startup :=
  match splitSymbols symbolsParam with
  | [] => ⟨["Error: Stock symbol required."], .closed⟩
  | first :: rest =>
    if first = "" then ⟨["Error: Stock symbol required."], .closed⟩
    else if tickerParam = "" then ⟨["Error: missing ticker parameter."], .closed⟩
    else
      match Atoi tickerParam with
      | none => ⟨["Error: Invalid ticker parameter value."], .closed⟩
      | some tickerInterval =>
        if tickerInterval ≤ 0 then ⟨["Error: Invalid ticker parameter value."], .closed⟩
        else if tickerDuration tickerInterval ≤ 0 then ⟨[], .panicked⟩
        else ⟨[], .active (first :: rest) (tickerDuration tickerInterval)⟩

/-- An active session: its symbols, the emitter goroutine, and whether
`stockHandler` has returned (its deferred `ticker.Stop()` and `conn.Close()`
have run). -/
structure Session where
  symbols : List String
  emitter : Emitter
  closed : Bool

/-- What can happen to an active session: the ticker fires (with the
surroundings of that tick), `conn.ReadMessage` returns a message, or
`conn.ReadMessage` returns an error (the client closed the connection). -/
inductive Event where
  | tick (env : TickEnv) : Event
  | readMessage : Event
  | readError : Event

/-- The session opened by a successful start-up. -/
def Session.start (symbols : List String) : Session :=
  { symbols := symbols, emitter := ⟨[], [], .running⟩, closed := false }

/-- One event of an active session (main.go 84-113). A tick is served only while
the emitter goroutine is in its `select` loop and the handler has not returned;
a read error closes `stop` and leaves the read loop, so the handler returns and
the goroutine ends at its next `select`; a received message changes nothing. -/
def Session.step (s : Session) : Event → Session
  | .tick env =>
    if s.closed = false ∧ s.emitter.status = .running then
      { s with emitter := tickLoop env 0 s.symbols s.emitter }
    else s
  | .readMessage => s
  | .readError =>
    if s.closed then s
    else
      { s with
        closed := true
        emitter :=
          if s.emitter.status = .running then { s.emitter with status := .returned }
          else s.emitter }

/-- A sequence of events, in order. -/
def Session.run (s : Session) (events : List Event) : Session :=
  events.foldl Session.step s

/-- The surroundings of a tick in which every fetch returns the series `ramp`
and every write to the connection fails. -/
def brokenConnEnv : TickEnv :=
  { httpGet := fun _ _ => .response (chartBody (ramp.map GoValue.float64))
    writeJSON := fun _ _ => false }

/-- The surroundings of a tick in which the fetch at position 0 fails with a
network error, every other fetch returns the series `ramp`, and every write
succeeds. -/
def firstFailsEnv : TickEnv :=
  { httpGet := fun i _ =>
      if i = 0 then .error "timeout" else .response (chartBody (ramp.map GoValue.float64))
    writeJSON := fun _ _ => true }

/-- The surroundings of a tick in which the provider answers the fetch at
position 0 with a body whose `chart.result` is `null` (no result for the symbol),
every other fetch returns the series `ramp`, and every write succeeds. -/
def noResultEnv : TickEnv :=
  { httpGet := fun i _ =>
      if i = 0 then .response (.value (.map [("chart", .map [("result", .nil)])]))
      else .response (chartBody (ramp.map GoValue.float64))
    writeJSON := fun _ _ => true }

/-- The levels `calculateFibonacci` returns for a series whose minimum is
`-1000` and whose maximum is `0`. -/
def negativeLevels : FibonacciRetracements := ⟨-1000, -764, -618, -500, -382, -236, 0⟩

theorem nearCheck_eq (currentPrice level threshold : ℚ) :
    nearCheck currentPrice level threshold
      = if level = 0 then false else decide (|currentPrice - level| / level ≤ threshold) := by
  unfold nearCheck nearCheckSigned floatQuotient
  by_cases h : level = 0
  · rw [if_pos h, if_pos h]
    by_cases hn : |currentPrice - level| = 0
    · rw [if_pos hn]
      rfl
    · have hpos : 0 < |currentPrice - level| := lt_of_le_of_ne (abs_nonneg _) (Ne.symm hn)
      rw [if_neg hn, if_pos hpos]
      rfl
  · rw [if_neg h, if_neg h]
    rfl

theorem index_of_lt (s : List ℚ) (n : Nat) (h : n < s.length) :
    index s (n : Int) = some (s.get ⟨n, h⟩) := by
  unfold index
  have h1 : (0 : Int) ≤ (n : Int) ∧ (n : Int) < (s.length : Int) := ⟨by omega, by omega⟩
  rw [if_pos h1, Int.toNat_natCast, List.get?_eq_get h]

theorem index_neg (s : List ℚ) (i : Int) (h : i < 0) : index s i = none := by
  unfold index
  rw [if_neg]
  omega

theorem sumLoop_nat (close : List ℚ) :
    ∀ (k n : Nat) (acc : ℚ), n + k = close.length →
      sumLoop close (n : Int) acc = some (acc + (close.drop n).sum) := by
  intro k
  induction k with
  | zero =>
    intro n acc h
    rw [sumLoop, if_neg (by omega)]
    have : close.drop n = [] := List.drop_eq_nil_of_le (by omega)
    simp [this]
  | succ k ih =>
    intro n acc h
    have hn : n < close.length := by omega
    rw [sumLoop, if_pos (by omega), index_of_lt close n hn]
    simp only
    have h2 := ih (n + 1) (acc + close.get ⟨n, hn⟩) (by omega)
    rw [Nat.cast_add, Nat.cast_one] at h2
    rw [h2, List.drop_eq_getElem_cons hn, List.sum_cons]
    simp [add_assoc]

theorem sumLoop_neg (close : List ℚ) (i : Int) (acc : ℚ) (h : i < 0) :
    sumLoop close i acc = none := by
  rw [sumLoop, if_pos (by omega), index_neg close i h]

theorem sumLoop_last (close : List ℚ) (n : Nat) (h : n ≤ close.length) :
    sumLoop close ((close.length : Int) - (n : Int)) 0 = some (lastN n close).sum := by
  have e : (close.length : Int) - (n : Int) = ((close.length - n : Nat) : Int) := by omega
  rw [e, sumLoop_nat close n (close.length - n) 0 (by omega)]
  simp [lastN]

theorem length_lastN (n : Nat) (xs : List ℚ) (h : n ≤ xs.length) : (lastN n xs).length = n := by
  simp [lastN]; omega

/-- Steps 3 and 4 of the specification's Strategy Engine, for the flag the
code computes: with `currentPrice = SMA50` and `predictedPrice` equal to
`SMA50 * (1 + 5/1440)`, `SMA50 * (1 - 5/1440)` or `SMA50` according to the
comparison of `SMA50` with `SMA200`, the result is `(buy, predictedPrice * 1.05)`,
`(sell, predictedPrice * 0.95)` or `(hold, SMA50)`. -/
theorem simpleStrategy_eq_specDecide (sma50 sma200 : ℚ) (fibonacci : FibonacciRetracements) :
    simpleStrategy sma50 sma200 fibonacci
      = specDecide sma50 sma200 (nearLevel sma50 fibonacci) := by
  have hf : predictionFactor = 5 / 1440 := by norm_num [predictionFactor]
  simp only [simpleStrategy, specDecide, predictedPrice, hf]

/-- C2: whenever the `nearLevel` flag is false, `simpleStrategy` returns the
action `hold` and the target `SMA50`, whatever the relation between `SMA50` and
`SMA200`. -/
theorem simpleStrategy_hold_of_not_near (sma50 sma200 : ℚ) (fibonacci : FibonacciRetracements)
    (h : nearLevel sma50 fibonacci = false) :
    simpleStrategy sma50 sma200 fibonacci = ("hold", sma50) := by
  simp [simpleStrategy, h]

theorem simpleStrategy_hold_of_not_near_witness :
    nearLevel 100 ⟨200, 200, 200, 200, 200, 200, 200⟩ = false ∧
      simpleStrategy 100 90 ⟨200, 200, 200, 200, 200, 200, 200⟩ = ("hold", 100) :=
  ⟨by simp [nearLevel, nearLoop, nearCheck_eq]; norm_num,
    simpleStrategy_hold_of_not_near 100 90 ⟨200, 200, 200, 200, 200, 200, 200⟩
      (by simp [nearLevel, nearLoop, nearCheck_eq]; norm_num)⟩

theorem calculateSMA_of_length_ge (stockData : StockData)
    (h : 200 ≤ stockData.Close.length) :
    calculateSMA stockData
      = some (mean (lastN 50 stockData.Close), mean (lastN 200 stockData.Close)) := by
  have h50 := sumLoop_last stockData.Close 50 (by omega)
  have h200 := sumLoop_last stockData.Close 200 h
  simp only [Nat.cast_ofNat] at h50 h200
  have l50 : (lastN 50 stockData.Close).length = 50 := length_lastN 50 _ (by omega)
  have l200 : (lastN 200 stockData.Close).length = 200 := length_lastN 200 _ h
  simp only [calculateSMA, h50, h200, mean, l50, l200, Nat.cast_ofNat]

/-- C3: for a series of length at least 200, `calculateSMA` returns the
arithmetic mean of the last 50 entries and the arithmetic mean of the last 200
entries. -/
theorem calculateSMA_eq_means (stockData : StockData) (h : 200 ≤ stockData.Close.length) :
    calculateSMA stockData
      = some (mean (lastN 50 stockData.Close), mean (lastN 200 stockData.Close)) :=
  calculateSMA_of_length_ge stockData h

theorem length_ramp : ramp.length = 200 := by
  unfold ramp
  rw [List.length_map, List.length_range]

theorem calculateSMA_eq_means_witness :
    200 ≤ (StockData.mk ramp).Close.length ∧
      calculateSMA ⟨ramp⟩ = some (mean (lastN 50 ramp), mean (lastN 200 ramp)) :=
  ⟨length_ramp.ge, calculateSMA_eq_means ⟨ramp⟩ length_ramp.ge⟩

theorem length_mul_le_sum (lo : ℚ) :
    ∀ l : List ℚ, (∀ x ∈ l, lo ≤ x) → (l.length : ℚ) * lo ≤ l.sum
  | [], _ => by simp
  | a :: l, h => by
    have h1 := length_mul_le_sum lo l (fun x hx => h x (List.mem_cons_of_mem a hx))
    have h2 := h a (List.mem_cons_self a l)
    simp only [List.length_cons, List.sum_cons, Nat.cast_add, Nat.cast_one]
    linarith

theorem sum_le_length_mul (hi : ℚ) :
    ∀ l : List ℚ, (∀ x ∈ l, x ≤ hi) → l.sum ≤ (l.length : ℚ) * hi
  | [], _ => by simp
  | a :: l, h => by
    have h1 := sum_le_length_mul hi l (fun x hx => h x (List.mem_cons_of_mem a hx))
    have h2 := h a (List.mem_cons_self a l)
    simp only [List.length_cons, List.sum_cons, Nat.cast_add, Nat.cast_one]
    linarith

theorem mem_of_mem_lastN {n : Nat} {xs : List ℚ} {x : ℚ} (h : x ∈ lastN n xs) : x ∈ xs :=
  List.mem_of_mem_drop h

theorem mean_lastN_bounds (n : Nat) (xs : List ℚ) (hn : 0 < n) (h : n ≤ xs.length)
    (lo hi : ℚ) (hlo : ∀ x ∈ xs, lo ≤ x) (hhi : ∀ x ∈ xs, x ≤ hi) :
    lo ≤ mean (lastN n xs) ∧ mean (lastN n xs) ≤ hi := by
  have hl := length_lastN n xs h
  have h1 := length_mul_le_sum lo (lastN n xs) (fun x hx => hlo x (mem_of_mem_lastN hx))
  have h2 := sum_le_length_mul hi (lastN n xs) (fun x hx => hhi x (mem_of_mem_lastN hx))
  have hpos : (0 : ℚ) < (n : ℚ) := by exact_mod_cast hn
  rw [hl] at h1 h2
  unfold mean
  rw [hl]
  constructor
  · rw [le_div_iff₀ hpos]; linarith
  · rw [div_le_iff₀ hpos]; linarith

/-- C4: for a series of length at least 200, both values returned by
`calculateSMA` lie between the minimum and the maximum of the series. -/
theorem calculateSMA_within_min_max (stockData : StockData)
    (h : 200 ≤ stockData.Close.length) :
    ∃ sma50 sma200 : ℚ, calculateSMA stockData = some (sma50, sma200) ∧
      stockData.Close.minimum_of_length_pos (by omega) ≤ sma50 ∧
      sma50 ≤ stockData.Close.maximum_of_length_pos (by omega) ∧
      stockData.Close.minimum_of_length_pos (by omega) ≤ sma200 ∧
      sma200 ≤ stockData.Close.maximum_of_length_pos (by omega) := by
  have hpos : 0 < stockData.Close.length := by omega
  have hlo : ∀ x ∈ stockData.Close, stockData.Close.minimum_of_length_pos hpos ≤ x :=
    fun x hx => List.minimum_of_length_pos_le_of_mem hx hpos
  have hhi : ∀ x ∈ stockData.Close, x ≤ stockData.Close.maximum_of_length_pos hpos :=
    fun x hx => List.le_maximum_of_length_pos_of_mem hx hpos
  have b50 := mean_lastN_bounds 50 stockData.Close (by omega) (by omega) _ _ hlo hhi
  have b200 := mean_lastN_bounds 200 stockData.Close (by omega) h _ _ hlo hhi
  exact ⟨_, _, calculateSMA_of_length_ge stockData h, b50.1, b50.2, b200.1, b200.2⟩

theorem calculateSMA_within_min_max_witness :
    200 ≤ (StockData.mk ramp).Close.length ∧
      ∃ sma50 sma200 : ℚ, calculateSMA ⟨ramp⟩ = some (sma50, sma200) ∧
        ramp.minimum_of_length_pos (by rw [length_ramp]; omega) ≤ sma50 ∧
        sma50 ≤ ramp.maximum_of_length_pos (by rw [length_ramp]; omega) ∧
        ramp.minimum_of_length_pos (by rw [length_ramp]; omega) ≤ sma200 ∧
        sma200 ≤ ramp.maximum_of_length_pos (by rw [length_ramp]; omega) :=
  ⟨length_ramp.ge, calculateSMA_within_min_max ⟨ramp⟩ length_ramp.ge⟩

theorem scan_high (xs : List ℚ) :
    ∀ hl : ℚ × ℚ, ((xs.foldl scanStep hl).1 = hl.1 ∨ (xs.foldl scanStep hl).1 ∈ xs) ∧
      hl.1 ≤ (xs.foldl scanStep hl).1 ∧ ∀ x ∈ xs, x ≤ (xs.foldl scanStep hl).1 := by
  induction xs with
  | nil => intro hl; simp
  | cons a xs ih =>
    intro hl
    obtain ⟨h1, h2, h3⟩ := ih (scanStep hl a)
    have ha : (scanStep hl a).1 = max a hl.1 := by
      simp only [scanStep, gt_iff_lt]
      split_ifs with hc
      · exact (max_eq_left hc.le).symm
      · exact (max_eq_right (not_lt.mp hc)).symm
    rw [List.foldl_cons]
    rw [ha] at h1 h2
    refine ⟨?_, le_trans (le_max_right _ _) h2, ?_⟩
    · rcases h1 with h1 | h1
      · rcases max_choice a hl.1 with hm | hm
        · right; rw [h1, hm]; exact List.mem_cons_self a xs
        · left; rw [h1, hm]
      · right; exact List.mem_cons_of_mem a h1
    · intro x hx
      rcases List.mem_cons.mp hx with hx | hx
      · rw [hx]; exact le_trans (le_max_left _ _) h2
      · exact h3 x hx

theorem scan_low (xs : List ℚ) :
    ∀ hl : ℚ × ℚ, ((xs.foldl scanStep hl).2 = hl.2 ∨ (xs.foldl scanStep hl).2 ∈ xs) ∧
      (xs.foldl scanStep hl).2 ≤ hl.2 ∧ ∀ x ∈ xs, (xs.foldl scanStep hl).2 ≤ x := by
  induction xs with
  | nil => intro hl; simp
  | cons a xs ih =>
    intro hl
    obtain ⟨h1, h2, h3⟩ := ih (scanStep hl a)
    have ha : (scanStep hl a).2 = min a hl.2 := by
      simp only [scanStep]
      split_ifs with hc
      · exact (min_eq_left hc.le).symm
      · exact (min_eq_right (not_lt.mp hc)).symm
    rw [List.foldl_cons]
    rw [ha] at h1 h2
    refine ⟨?_, le_trans h2 (min_le_right _ _), ?_⟩
    · rcases h1 with h1 | h1
      · rcases min_choice a hl.2 with hm | hm
        · right; rw [h1, hm]; exact List.mem_cons_self a xs
        · left; rw [h1, hm]
      · right; exact List.mem_cons_of_mem a h1
    · intro x hx
      rcases List.mem_cons.mp hx with hx | hx
      · rw [hx]; exact le_trans h2 (min_le_left _ _)
      · exact h3 x hx

theorem index_zero (xs : List ℚ) (h : 0 < xs.length) : index xs 0 = some (xs.get ⟨0, h⟩) := by
  simpa using index_of_lt xs 0 h

theorem scan_eq_max_min (xs : List ℚ) (h : 0 < xs.length) :
    xs.foldl scanStep (xs.get ⟨0, h⟩, xs.get ⟨0, h⟩)
      = (xs.maximum_of_length_pos h, xs.minimum_of_length_pos h) := by
  have hmem : xs.get ⟨0, h⟩ ∈ xs := List.get_mem xs 0 h
  obtain ⟨a1, _, a3⟩ := scan_high xs (xs.get ⟨0, h⟩, xs.get ⟨0, h⟩)
  obtain ⟨b1, _, b3⟩ := scan_low xs (xs.get ⟨0, h⟩, xs.get ⟨0, h⟩)
  have hhigh : (xs.foldl scanStep (xs.get ⟨0, h⟩, xs.get ⟨0, h⟩)).1 ∈ xs := by
    rcases a1 with a1 | a1
    · rw [a1]; exact hmem
    · exact a1
  have hlow : (xs.foldl scanStep (xs.get ⟨0, h⟩, xs.get ⟨0, h⟩)).2 ∈ xs := by
    rcases b1 with b1 | b1
    · rw [b1]; exact hmem
    · exact b1
  apply Prod.ext
  · exact le_antisymm (List.le_maximum_of_length_pos_of_mem hhigh h)
      (a3 _ (List.maximum_of_length_pos_mem h))
  · exact le_antisymm (b3 _ (List.minimum_of_length_pos_mem h))
      (List.minimum_of_length_pos_le_of_mem hlow h)

theorem calculateFibonacci_of_length_pos (closePrices : List ℚ)
    (h : 0 < closePrices.length) :
    calculateFibonacci closePrices
      = some (specFibonacci (closePrices.minimum_of_length_pos h)
          (closePrices.maximum_of_length_pos h)) := by
  simp only [calculateFibonacci, index_zero closePrices h, scan_eq_max_min closePrices h,
    specFibonacci, specLevel]
  congr 2
  · ring
  · norm_num
  · ring

/-- C5: for a non-empty series, `calculateFibonacci` returns the seven levels
`low + (high - low) * p` for `p` in `0, 0.236, 0.382, 0.5, 0.618, 0.764, 1`, with
`high` the maximum and `low` the minimum of the whole series; in particular
`Level0` is the minimum and `Level100` the maximum. -/
theorem calculateFibonacci_eq_specFibonacci (closePrices : List ℚ)
    (h : 0 < closePrices.length) :
    calculateFibonacci closePrices
        = some (specFibonacci (closePrices.minimum_of_length_pos h)
            (closePrices.maximum_of_length_pos h)) ∧
      (specFibonacci (closePrices.minimum_of_length_pos h)
          (closePrices.maximum_of_length_pos h)).Level0
        = closePrices.minimum_of_length_pos h ∧
      (specFibonacci (closePrices.minimum_of_length_pos h)
          (closePrices.maximum_of_length_pos h)).Level100
        = closePrices.maximum_of_length_pos h := by
  refine ⟨calculateFibonacci_of_length_pos closePrices h, ?_, ?_⟩
  · simp [specFibonacci, specLevel]
  · simp [specFibonacci, specLevel]

theorem ramp_pos : 0 < ramp.length := by rw [length_ramp]; omega

theorem calculateFibonacci_eq_specFibonacci_witness :
    0 < ramp.length ∧
      calculateFibonacci ramp
        = some (specFibonacci (ramp.minimum_of_length_pos ramp_pos)
            (ramp.maximum_of_length_pos ramp_pos)) :=
  ⟨ramp_pos, (calculateFibonacci_eq_specFibonacci ramp ramp_pos).1⟩

theorem specFibonacci_chain (low high : ℚ) (h : low ≤ high) :
    (specFibonacci low high).Level0 ≤ (specFibonacci low high).Level236 ∧
      (specFibonacci low high).Level236 ≤ (specFibonacci low high).Level382 ∧
      (specFibonacci low high).Level382 ≤ (specFibonacci low high).Level500 ∧
      (specFibonacci low high).Level500 ≤ (specFibonacci low high).Level618 ∧
      (specFibonacci low high).Level618 ≤ (specFibonacci low high).Level764 ∧
      (specFibonacci low high).Level764 ≤ (specFibonacci low high).Level100 := by
  simp only [specFibonacci, specLevel]
  refine ⟨?_, ?_, ?_, ?_, ?_, ?_⟩ <;> linarith

theorem min_le_max_of_length_pos (xs : List ℚ) (h : 0 < xs.length) :
    xs.minimum_of_length_pos h ≤ xs.maximum_of_length_pos h :=
  List.le_maximum_of_length_pos_of_mem (List.minimum_of_length_pos_mem h) h

/-- C6: for a non-empty series, the levels returned by `calculateFibonacci` are
in ascending order `Level0 ≤ Level236 ≤ Level382 ≤ Level500 ≤ Level618 ≤ Level764
≤ Level100` whenever the maximum exceeds the minimum, and all seven levels are
equal when the maximum equals the minimum. -/
theorem calculateFibonacci_levels_ordered (closePrices : List ℚ)
    (h : 0 < closePrices.length) :
    ∃ f : FibonacciRetracements, calculateFibonacci closePrices = some f ∧
      (closePrices.minimum_of_length_pos h < closePrices.maximum_of_length_pos h →
        f.Level0 ≤ f.Level236 ∧ f.Level236 ≤ f.Level382 ∧ f.Level382 ≤ f.Level500 ∧
          f.Level500 ≤ f.Level618 ∧ f.Level618 ≤ f.Level764 ∧ f.Level764 ≤ f.Level100) ∧
      (closePrices.maximum_of_length_pos h = closePrices.minimum_of_length_pos h →
        f.Level0 = f.Level236 ∧ f.Level236 = f.Level382 ∧ f.Level382 = f.Level500 ∧
          f.Level500 = f.Level618 ∧ f.Level618 = f.Level764 ∧ f.Level764 = f.Level100) := by
  refine ⟨_, calculateFibonacci_of_length_pos closePrices h, ?_, ?_⟩
  · intro hlt
    exact specFibonacci_chain _ _ hlt.le
  · intro heq
    simp [specFibonacci, specLevel, heq]

theorem calculateFibonacci_levels_ordered_witness :
    0 < ramp.length ∧
      ∃ f : FibonacciRetracements, calculateFibonacci ramp = some f ∧
        (ramp.minimum_of_length_pos ramp_pos < ramp.maximum_of_length_pos ramp_pos →
          f.Level0 ≤ f.Level236 ∧ f.Level236 ≤ f.Level382 ∧ f.Level382 ≤ f.Level500 ∧
            f.Level500 ≤ f.Level618 ∧ f.Level618 ≤ f.Level764 ∧ f.Level764 ≤ f.Level100) ∧
        (ramp.maximum_of_length_pos ramp_pos = ramp.minimum_of_length_pos ramp_pos →
          f.Level0 = f.Level236 ∧ f.Level236 = f.Level382 ∧ f.Level382 = f.Level500 ∧
            f.Level500 = f.Level618 ∧ f.Level618 = f.Level764 ∧ f.Level764 = f.Level100) :=
  ⟨ramp_pos, calculateFibonacci_levels_ordered ramp ramp_pos⟩

theorem calculateSMA_short (stockData : StockData) (h : stockData.Close.length < 200) :
    calculateSMA stockData = none := by
  have h200 : sumLoop stockData.Close ((stockData.Close.length : Int) - 200) 0 = none :=
    sumLoop_neg _ _ _ (by omega)
  unfold calculateSMA
  rw [h200]
  cases sumLoop stockData.Close ((stockData.Close.length : Int) - 50) 0 <;> rfl

theorem getSignal_short (fetchStockData : String → Outcome StockData) (symbol : String)
    (stockData : StockData) (hf : fetchStockData symbol = .ok stockData)
    (h : stockData.Close.length < 200) :
    getSignal fetchStockData symbol = .panic := by
  unfold getSignal
  rw [hf]
  simp only [calculateSMA_short stockData h]

theorem length_shortSeries : shortSeries.Close.length = 199 :=
  List.length_replicate 199 100

/-- C7 (the code at the failing input): with a fetched series of 199 closes,
and with the empty series, `getSignal` neither returns an error nor a signal:
`calculateSMA` indexes the slice at a negative position and the call panics. -/
theorem getSignal_short_series_panics :
    getSignal (fun _ => .ok shortSeries) "AAA" = .panic ∧
      getSignal (fun _ => .ok ⟨[]⟩) "AAA" = .panic ∧
      calculateSMA shortSeries = none ∧ calculateSMA ⟨[]⟩ = none :=
  ⟨getSignal_short _ _ shortSeries rfl (by rw [length_shortSeries]; omega),
    getSignal_short _ _ ⟨[]⟩ rfl (by simp),
    calculateSMA_short shortSeries (by rw [length_shortSeries]; omega),
    calculateSMA_short ⟨[]⟩ (by simp)⟩

theorem index_last (xs : List ℚ) (h : xs ≠ []) :
    index xs ((xs.length : Int) - 1) = some (xs.getLast h) := by
  have hpos : 0 < xs.length := List.length_pos.mpr h
  have e : (xs.length : Int) - 1 = ((xs.length - 1 : Nat) : Int) := by omega
  rw [e, index_of_lt xs (xs.length - 1) (by omega), List.getLast_eq_getElem]
  rfl

/-- C8: when the fetch succeeds with a series of length at least 200,
`getSignal` returns a signal for the requested symbol whose current price is
the last element of the series and whose action and target are those of
`simpleStrategy` on the results of `calculateSMA` and `calculateFibonacci`; when
the fetch fails, `getSignal` returns that same error. -/
theorem getSignal_spec (fetchStockData : String → Outcome StockData) (symbol : String) :
    (∀ stockData : StockData, fetchStockData symbol = .ok stockData →
      200 ≤ stockData.Close.length →
      ∃ (sma50 sma200 last : ℚ) (fibonacci : FibonacciRetracements),
        calculateSMA stockData = some (sma50, sma200) ∧
        calculateFibonacci stockData.Close = some fibonacci ∧
        stockData.Close.getLast? = some last ∧
        getSignal fetchStockData symbol
          = .ok { Symbol := symbol
                  Action := (simpleStrategy sma50 sma200 fibonacci).1
                  Target := (simpleStrategy sma50 sma200 fibonacci).2
                  CurrentPrice := last }) ∧
      (∀ err : String, fetchStockData symbol = .error err →
        getSignal fetchStockData symbol = .error err) := by
  constructor
  · intro stockData hf h
    have hne : stockData.Close ≠ [] := by
      intro h0
      rw [h0] at h
      simp at h
    have hpos : 0 < stockData.Close.length := by omega
    have hsma := calculateSMA_of_length_ge stockData h
    have hfib := calculateFibonacci_of_length_pos stockData.Close hpos
    refine ⟨_, _, stockData.Close.getLast hne, _, hsma, hfib,
      List.getLast?_eq_getLast _ hne, ?_⟩
    unfold getSignal
    rw [hf]
    simp only [hsma, hfib, index_last stockData.Close hne]
  · intro err hf
    unfold getSignal
    rw [hf]

theorem getSignal_spec_witness :
    sampleFetch "AAA" = .ok ⟨ramp⟩ ∧ 200 ≤ (StockData.mk ramp).Close.length ∧
      (∃ (sma50 sma200 last : ℚ) (fibonacci : FibonacciRetracements),
        calculateSMA ⟨ramp⟩ = some (sma50, sma200) ∧
        calculateFibonacci ramp = some fibonacci ∧
        ramp.getLast? = some last ∧
        getSignal sampleFetch "AAA"
          = .ok { Symbol := "AAA"
                  Action := (simpleStrategy sma50 sma200 fibonacci).1
                  Target := (simpleStrategy sma50 sma200 fibonacci).2
                  CurrentPrice := last }) ∧
      sampleFetch "BBB" = .error "no data" ∧
      getSignal sampleFetch "BBB" = .error "no data" :=
  ⟨rfl, length_ramp.ge, (getSignal_spec sampleFetch "AAA").1 ⟨ramp⟩ rfl length_ramp.ge,
    rfl, (getSignal_spec sampleFetch "BBB").2 "no data" rfl⟩

theorem sum_lt_length_mul (hi : ℚ) :
    ∀ l : List ℚ, l ≠ [] → (∀ x ∈ l, x < hi) → l.sum < (l.length : ℚ) * hi
  | [], h, _ => absurd rfl h
  | a :: l, _, h => by
    have h1 := sum_le_length_mul hi l (fun x hx => (h x (List.mem_cons_of_mem a hx)).le)
    have h2 := h a (List.mem_cons_self a l)
    simp only [List.length_cons, List.sum_cons, Nat.cast_add, Nat.cast_one]
    linarith

theorem lastN_split (xs : List ℚ) (h : 200 ≤ xs.length) :
    lastN 200 xs = (lastN 200 xs).take 150 ++ lastN 50 xs := by
  have e : lastN 50 xs = (lastN 200 xs).drop 150 := by
    unfold lastN
    rw [List.drop_drop]
    congr 1
    omega
  rw [e, List.take_append_drop]

theorem sma50_gt_sma200 (xs : List ℚ) (h : 200 ≤ xs.length) (hs : xs.Sorted (· < ·)) :
    mean (lastN 200 xs) < mean (lastN 50 xs) := by
  have l50 : (lastN 50 xs).length = 50 := length_lastN 50 xs (by omega)
  have l200 : (lastN 200 xs).length = 200 := length_lastN 200 xs h
  have hsplit := lastN_split xs h
  have hsorted : (lastN 200 xs).Pairwise (· < ·) :=
    List.Pairwise.sublist (List.drop_sublist _ _) hs
  rw [hsplit, List.pairwise_append] at hsorted
  obtain ⟨_, hB, hAB⟩ := hsorted
  have lA : ((lastN 200 xs).take 150).length = 150 := by
    rw [List.length_take, l200]
    rfl
  have hAne : (lastN 200 xs).take 150 ≠ [] := by
    intro h0
    rw [h0] at lA
    simp at lA
  obtain ⟨b, B, hb⟩ : ∃ b B, lastN 50 xs = b :: B := by
    cases hl : lastN 50 xs with
    | nil => rw [hl] at l50; simp at l50
    | cons b B => exact ⟨b, B, rfl⟩
  have hA : ((lastN 200 xs).take 150).sum < (((lastN 200 xs).take 150).length : ℚ) * b :=
    sum_lt_length_mul b _ hAne (fun a ha => hAB a ha b (by rw [hb]; exact List.mem_cons_self b B))
  have hBsum : ((lastN 50 xs).length : ℚ) * b ≤ (lastN 50 xs).sum := by
    apply length_mul_le_sum
    intro x hx
    rw [hb] at hx hB
    rcases List.mem_cons.mp hx with hx | hx
    · rw [hx]
    · exact ((List.pairwise_cons.mp hB).1 x hx).le
  have hsum : (lastN 200 xs).sum = ((lastN 200 xs).take 150).sum + (lastN 50 xs).sum := by
    conv_lhs => rw [hsplit]
    rw [List.sum_append]
  rw [lA] at hA
  rw [l50] at hBsum
  unfold mean
  rw [l50, l200, hsum]
  push_cast at hA hBsum ⊢
  rw [div_lt_div_iff₀ (by norm_num) (by norm_num)]
  linarith

/-- C10: for a strictly increasing series of positive prices of length at least
200, `calculateSMA` returns `SMA50 > SMA200`, and the `predictedPrice` of
`simpleStrategy` is `SMA50 * (1 + 5/1440)`, strictly greater than its
`currentPrice = SMA50`. -/
theorem increasing_series_predicts_up (stockData : StockData)
    (h : 200 ≤ stockData.Close.length) (hs : stockData.Close.Sorted (· < ·))
    (hpos : ∀ x ∈ stockData.Close, 0 < x) :
    ∃ sma50 sma200 : ℚ, calculateSMA stockData = some (sma50, sma200) ∧
      sma50 > sma200 ∧
      predictedPrice sma50 sma200 = sma50 * (1 + 5 / 1440) ∧
      predictedPrice sma50 sma200 > sma50 := by
  have hgt := sma50_gt_sma200 stockData.Close h hs
  have hlen : 0 < stockData.Close.length := by omega
  have hmin : 0 < stockData.Close.minimum_of_length_pos hlen :=
    hpos _ (List.minimum_of_length_pos_mem hlen)
  have hb := (mean_lastN_bounds 50 stockData.Close (by omega) (by omega)
    (stockData.Close.minimum_of_length_pos hlen) (stockData.Close.maximum_of_length_pos hlen)
    (fun x hx => List.minimum_of_length_pos_le_of_mem hx hlen)
    (fun x hx => List.le_maximum_of_length_pos_of_mem hx hlen)).1
  have h50 : 0 < mean (lastN 50 stockData.Close) := lt_of_lt_of_le hmin hb
  have hp : predictedPrice (mean (lastN 50 stockData.Close)) (mean (lastN 200 stockData.Close))
      = mean (lastN 50 stockData.Close) * (1 + 5 / 1440) := by
    unfold predictedPrice predictionFactor
    rw [if_pos hgt]
    norm_num
  refine ⟨_, _, calculateSMA_of_length_ge stockData h, hgt, hp, ?_⟩
  rw [hp]
  linarith

theorem ramp_sorted : ramp.Sorted (· < ·) := by
  unfold ramp List.Sorted
  rw [List.pairwise_map]
  refine List.Pairwise.imp ?_ (List.pairwise_lt_range 200)
  intro a b hab
  have : (a : ℚ) < (b : ℚ) := by exact_mod_cast hab
  linarith

theorem ramp_positive : ∀ x ∈ ramp, (0 : ℚ) < x := by
  intro x hx
  unfold ramp at hx
  obtain ⟨i, _, rfl⟩ := List.mem_map.mp hx
  positivity

theorem increasing_series_predicts_up_witness :
    200 ≤ (StockData.mk ramp).Close.length ∧ ramp.Sorted (· < ·) ∧ (∀ x ∈ ramp, (0 : ℚ) < x) ∧
      ∃ sma50 sma200 : ℚ, calculateSMA ⟨ramp⟩ = some (sma50, sma200) ∧
        sma50 > sma200 ∧
        predictedPrice sma50 sma200 = sma50 * (1 + 5 / 1440) ∧
        predictedPrice sma50 sma200 > sma50 :=
  ⟨length_ramp.ge, ramp_sorted, ramp_positive,
    increasing_series_predicts_up ⟨ramp⟩ length_ramp.ge ramp_sorted ramp_positive⟩

/-! ## The provider response, the tick and the session -/

theorem getSignal_ok_of_length_ge (fetchStockData : String → Outcome StockData)
    (symbol : String) (stockData : StockData) (hf : fetchStockData symbol = .ok stockData)
    (h : 200 ≤ stockData.Close.length) :
    ∃ signal : Signal, getSignal fetchStockData symbol = .ok signal ∧ signal.Symbol = symbol := by
  have hne : stockData.Close ≠ [] := by
    intro h0
    rw [h0] at h
    simp at h
  have hpos : 0 < stockData.Close.length := by omega
  have hg : getSignal fetchStockData symbol
      = .ok
          { Symbol := symbol
            Action := (simpleStrategy (mean (lastN 50 stockData.Close))
              (mean (lastN 200 stockData.Close))
              (specFibonacci (stockData.Close.minimum_of_length_pos hpos)
                (stockData.Close.maximum_of_length_pos hpos))).1
            Target := (simpleStrategy (mean (lastN 50 stockData.Close))
              (mean (lastN 200 stockData.Close))
              (specFibonacci (stockData.Close.minimum_of_length_pos hpos)
                (stockData.Close.maximum_of_length_pos hpos))).2
            CurrentPrice := stockData.Close.getLast hne } := by
    unfold getSignal
    rw [hf]
    simp only [calculateSMA_of_length_ge stockData h,
      calculateFibonacci_of_length_pos stockData.Close hpos, index_last stockData.Close hne]
  exact ⟨_, hg, rfl⟩

theorem appendLoop_closeEntry (entries : List (Option ℚ)) :
    ∀ close : List ℚ,
      appendLoop (entries.map closeEntry) close = some (close ++ entries.filterMap id) := by
  induction entries with
  | nil => intro close; simp [appendLoop]
  | cons e entries ih =>
    intro close
    cases e with
    | none => simp [closeEntry, appendLoop, ih]
    | some x => simp [closeEntry, appendLoop, assertFloat64, ih]

theorem fetchStockData_chartBody (httpGet : String → HttpResult) (symbol : String)
    (entries : List (Option ℚ))
    (h : httpGet (yahooFinanceAPI symbol) = .response (chartBody (entries.map closeEntry))) :
    fetchStockData httpGet symbol = .ok ⟨entries.filterMap id⟩ := by
  have hc : closePricesOf (decodeData (chartBody (entries.map closeEntry)))
      = some (entries.map closeEntry) := rfl
  unfold fetchStockData
  rw [h]
  simp only [hc, appendLoop_closeEntry, List.nil_append]

theorem map_float64_eq (xs : List ℚ) :
    xs.map GoValue.float64 = (xs.map some).map closeEntry := by
  rw [List.map_map]
  rfl

theorem filterMap_id_map_some (xs : List ℚ) : (xs.map some).filterMap id = xs := by
  induction xs with
  | nil => rfl
  | cons x xs ih => simp

theorem fetchStockData_series (httpGet : String → HttpResult) (symbol : String) (xs : List ℚ)
    (h : httpGet (yahooFinanceAPI symbol) = .response (chartBody (xs.map GoValue.float64))) :
    fetchStockData httpGet symbol = .ok ⟨xs⟩ := by
  rw [map_float64_eq] at h
  rw [fetchStockData_chartBody httpGet symbol _ h, filterMap_id_map_some]

theorem getSignal_ramp_ok (httpGet : String → HttpResult) (symbol : String)
    (h : httpGet (yahooFinanceAPI symbol) = .response (chartBody (ramp.map GoValue.float64))) :
    ∃ signal : Signal, getSignal (fetchStockData httpGet) symbol = .ok signal ∧
      signal.Symbol = symbol :=
  getSignal_ok_of_length_ge _ symbol ⟨ramp⟩ (fetchStockData_series httpGet symbol ramp h)
    length_ramp.ge

theorem getSignal_fetch_error (httpGet : String → HttpResult) (symbol err : String)
    (h : httpGet (yahooFinanceAPI symbol) = .error err) :
    getSignal (fetchStockData httpGet) symbol = .error err := by
  simp [getSignal, fetchStockData, h]

theorem tickLoop_all_sent (env : TickEnv) (hw : ∀ i signal, env.writeJSON i signal = true) :
    ∀ (symbols : List String) (i : Nat) (st : Emitter),
      (∀ p ∈ symbols.enumFrom i,
        getSignal (fetchStockData (env.httpGet p.1)) p.2 ≠ .panic) →
      (tickLoop env i symbols st).sent
          = st.sent ++ (symbols.enumFrom i).filterMap (fun p => signalAt env p.1 p.2) ∧
        (tickLoop env i symbols st).fetched = st.fetched ++ symbols ∧
        (tickLoop env i symbols st).status = st.status := by
  intro symbols
  induction symbols with
  | nil => intro i st _; simp [tickLoop]
  | cons symbol rest ih =>
    intro i st hp
    have h0 := hp (i, symbol) (by simp)
    have hrest : ∀ p ∈ rest.enumFrom (i + 1),
        getSignal (fetchStockData (env.httpGet p.1)) p.2 ≠ .panic :=
      fun p hpm => hp p (by rw [List.enumFrom_cons]; exact List.mem_cons_of_mem _ hpm)
    rw [List.enumFrom_cons, List.filterMap_cons]
    unfold tickLoop signalAt
    cases hg : getSignal (fetchStockData (env.httpGet i)) symbol with
    | panic => exact absurd hg h0
    | error e =>
      obtain ⟨h1, h2, h3⟩ := ih (i + 1) { st with fetched := st.fetched ++ [symbol] } hrest
      simp only [h1, h2, h3, signalAt]
      simp
    | ok signal =>
      obtain ⟨h1, h2, h3⟩ := ih (i + 1)
        { st with sent := st.sent ++ [signal], fetched := st.fetched ++ [symbol] } hrest
      simp only [hw, if_true, h1, h2, h3, signalAt]
      simp

/-- In one tick, if every send succeeds and no call of `getSignal` panics, the
messages emitted are exactly the signals of the symbols whose
`getSignal` succeeded, in the order of the symbol list, each position being
processed on its own; every symbol is attempted, so an error for one symbol
does not keep a later symbol's signal from being emitted. -/
theorem tick_emits_successes_in_order (env : TickEnv) (symbols : List String) (st : Emitter)
    (hw : ∀ i signal, env.writeJSON i signal = true)
    (hp : ∀ p ∈ symbols.enum, getSignal (fetchStockData (env.httpGet p.1)) p.2 ≠ .panic) :
    (tickLoop env 0 symbols st).sent
        = st.sent ++ symbols.enum.filterMap (fun p => signalAt env p.1 p.2) ∧
      (tickLoop env 0 symbols st).fetched = st.fetched ++ symbols ∧
      (tickLoop env 0 symbols st).status = st.status ∧
      ∀ p ∈ symbols.enum, ∀ signal : Signal,
        getSignal (fetchStockData (env.httpGet p.1)) p.2 = .ok signal →
        signal ∈ (tickLoop env 0 symbols st).sent := by
  obtain ⟨h1, h2, h3⟩ := tickLoop_all_sent env hw symbols 0 st hp
  refine ⟨h1, h2, h3, ?_⟩
  intro p hpm signal hs
  rw [h1]
  apply List.mem_append_right
  rw [List.mem_filterMap]
  exact ⟨p, hpm, by simp [signalAt, hs]⟩

theorem firstFailsEnv_no_panic :
    ∀ p ∈ ["AAA", "BBB"].enum,
      getSignal (fetchStockData (firstFailsEnv.httpGet p.1)) p.2 ≠ .panic := by
  intro p hpm
  simp only [List.enum, List.enumFrom_cons, List.enumFrom_nil, List.mem_cons,
    List.mem_singleton, List.not_mem_nil, or_false] at hpm
  rcases hpm with rfl | rfl
  · rw [getSignal_fetch_error (firstFailsEnv.httpGet 0) "AAA" "timeout" rfl]
    simp
  · obtain ⟨signal, hs, _⟩ := getSignal_ramp_ok (firstFailsEnv.httpGet 1) "BBB" rfl
    rw [hs]
    simp

theorem tick_emits_successes_in_order_witness :
    (∀ i signal, firstFailsEnv.writeJSON i signal = true) ∧
      (tickLoop firstFailsEnv 0 ["AAA", "BBB"] ⟨[], [], .running⟩).fetched = ["AAA", "BBB"] ∧
      ∀ p ∈ ["AAA", "BBB"].enum, ∀ signal : Signal,
        getSignal (fetchStockData (firstFailsEnv.httpGet p.1)) p.2 = .ok signal →
        signal ∈ (tickLoop firstFailsEnv 0 ["AAA", "BBB"] ⟨[], [], .running⟩).sent :=
  ⟨fun _ _ => rfl,
    (tick_emits_successes_in_order firstFailsEnv ["AAA", "BBB"] ⟨[], [], .running⟩
      (fun _ _ => rfl) firstFailsEnv_no_panic).2.1,
    (tick_emits_successes_in_order firstFailsEnv ["AAA", "BBB"] ⟨[], [], .running⟩
      (fun _ _ => rfl) firstFailsEnv_no_panic).2.2.2⟩

theorem splitComma_first (cs : List Char) :
    ∃ piece pieces, splitComma cs = piece :: pieces ∧
      (piece = [] ↔ cs = [] ∨ cs.head? = some ',') := by
  cases cs with
  | nil => exact ⟨[], [], rfl, by simp⟩
  | cons c cs =>
    by_cases hc : c = ','
    · exact ⟨[], splitComma cs, by simp [splitComma, hc], by simp [hc]⟩
    · cases hs : splitComma cs with
      | nil => exact ⟨[c], [], by simp [splitComma, hc, hs], by simp [hc]⟩
      | cons piece pieces =>
        exact ⟨c :: piece, pieces, by simp [splitComma, hc, hs], by simp [hc]⟩

theorem splitSymbols_first (symbolsParam : String) :
    ∃ first rest, splitSymbols symbolsParam = first :: rest ∧
      (first = "" ↔ symbolsParam.data = [] ∨ symbolsParam.data.head? = some ',') := by
  obtain ⟨piece, pieces, hs, hiff⟩ := splitComma_first symbolsParam.data
  refine ⟨String.mk piece, pieces.map String.mk, by simp [splitSymbols, hs], ?_⟩
  rw [← hiff]
  constructor
  · intro h
    have := congrArg String.data h
    simpa using this
  · intro h
    rw [h]

theorem startup_cases (symbolsParam tickerParam : String) (first : String)
    (rest : List String) (hs : splitSymbols symbolsParam = first :: rest) (hne : first ≠ "") :
    stockHandlerStart symbolsParam tickerParam
      = (if tickerParam = "" then ⟨["Error: missing ticker parameter."], .closed⟩
        else
          match Atoi tickerParam with
          | none => ⟨["Error: Invalid ticker parameter value."], .closed⟩
          | some tickerInterval =>
            if tickerInterval ≤ 0 then ⟨["Error: Invalid ticker parameter value."], .closed⟩
            else if tickerDuration tickerInterval ≤ 0 then ⟨[], .panicked⟩
            else ⟨[], .active (first :: rest) (tickerDuration tickerInterval)⟩) := by
  unfold stockHandlerStart
  rw [hs]
  simp only [hne, if_false]

theorem startup_sent_ne_symbol_required (symbolsParam tickerParam : String) (first : String)
    (rest : List String) (hs : splitSymbols symbolsParam = first :: rest) (hne : first ≠ "") :
    (stockHandlerStart symbolsParam tickerParam).sent ≠ ["Error: Stock symbol required."] := by
  rw [startup_cases symbolsParam tickerParam first rest hs hne]
  split_ifs with h1
  · decide
  · cases Atoi tickerParam with
    | none => simp
    | some n =>
      simp only
      split_ifs <;> simp

theorem startup_symbol_required (symbolsParam tickerParam : String) (rest : List String)
    (hs : splitSymbols symbolsParam = "" :: rest) :
    stockHandlerStart symbolsParam tickerParam
      = ⟨["Error: Stock symbol required."], .closed⟩ := by
  unfold stockHandlerStart
  rw [hs]
  simp

/-- C12 (the claim as stated fails): the parameter `symbols=,AAA` lists the
non-empty entry `AAA`, yet the handler rejects it with the symbol error. -/
theorem symbol_check_rejects_leading_comma :
    "AAA" ∈ splitSymbols ",AAA" ∧ "AAA" ≠ "" ∧
      stockHandlerStart ",AAA" "1" = ⟨["Error: Stock symbol required."], .closed⟩ := by
  decide

/-- C12 (amended): the handler rejects the `symbols` parameter exactly when the
first entry of the comma-separated list is empty, that is when the parameter is
empty (or missing) or begins with a comma; a rejected session has sent exactly
the one message `Error: Stock symbol required.` and is closed without starting
the periodic emission, in particular for the empty parameter. -/
theorem symbol_check_first_entry (symbolsParam tickerParam : String) :
    ((stockHandlerStart symbolsParam tickerParam).sent = ["Error: Stock symbol required."] ↔
        (splitSymbols symbolsParam).head? = some "") ∧
      ((splitSymbols symbolsParam).head? = some "" ↔
        symbolsParam.data = [] ∨ symbolsParam.data.head? = some ',') ∧
      ((splitSymbols symbolsParam).head? = some "" →
        stockHandlerStart symbolsParam tickerParam
          = ⟨["Error: Stock symbol required."], .closed⟩) ∧
      stockHandlerStart "" tickerParam = ⟨["Error: Stock symbol required."], .closed⟩ := by
  obtain ⟨first, rest, hs, hiff⟩ := splitSymbols_first symbolsParam
  have hhead : (splitSymbols symbolsParam).head? = some "" ↔ first = "" := by
    rw [hs]
    simp
  refine ⟨?_, ?_, ?_, ?_⟩
  · rw [hhead]
    constructor
    · intro h
      by_contra hne
      exact startup_sent_ne_symbol_required symbolsParam tickerParam first rest hs hne h
    · intro h
      rw [h] at hs
      rw [startup_symbol_required symbolsParam tickerParam rest hs]
  · rw [hhead, hiff]
  · intro h
    rw [hhead] at h
    rw [h] at hs
    exact startup_symbol_required symbolsParam tickerParam rest hs
  · exact startup_symbol_required "" tickerParam [] rfl

/-- C13 (the code at the failing input): `ticker=9223372037` parses as a positive
integer, but the duration `9223372037 * time.Second` overflows `int64` to a
negative value, so `time.NewTicker` panics: the session is not active and no
error message is sent. The largest interval that does not overflow is
accepted, and a missing ticker, an invalid ticker and missing symbols are
answered with three different messages. -/
theorem ticker_overflow_panics :
    Atoi "9223372037" = some 9223372037 ∧
      tickerDuration 9223372037 = -9223372036709551616 ∧
      stockHandlerStart "AAA" "9223372037" = ⟨[], .panicked⟩ ∧
      stockHandlerStart "AAA" "9223372036" = ⟨[], .active ["AAA"] 9223372036000000000⟩ ∧
      stockHandlerStart "AAA" "" = ⟨["Error: missing ticker parameter."], .closed⟩ ∧
      stockHandlerStart "AAA" "0" = ⟨["Error: Invalid ticker parameter value."], .closed⟩ ∧
      stockHandlerStart "AAA" "abc" = ⟨["Error: Invalid ticker parameter value."], .closed⟩ ∧
      stockHandlerStart "" "1" = ⟨["Error: Stock symbol required."], .closed⟩ := by
  decide

theorem startup_active_iff (symbolsParam tickerParam : String) (first : String)
    (rest : List String) (hs : splitSymbols symbolsParam = first :: rest) (hne : first ≠ "") :
    (∃ symbols interval,
        (stockHandlerStart symbolsParam tickerParam).phase = .active symbols interval) ↔
      ∃ n : Int, Atoi tickerParam = some n ∧ 0 < n ∧ 0 < tickerDuration n := by
  rw [startup_cases symbolsParam tickerParam first rest hs hne]
  by_cases h1 : tickerParam = ""
  · subst h1
    simp [Atoi]
  · rw [if_neg h1]
    cases ha : Atoi tickerParam with
    | none => simp
    | some n =>
      simp only
      by_cases h2 : n ≤ 0
      · rw [if_pos h2]
        simp only [Option.some.injEq, exists_eq_left', false_iff, not_and, not_lt, reduceCtorEq,
          exists_false]
        intro h3
        omega
      · rw [if_neg h2]
        by_cases h3 : tickerDuration n ≤ 0
        · rw [if_pos h3]
          simp only [Option.some.injEq, exists_eq_left', false_iff, not_and, not_lt, reduceCtorEq,
            exists_false]
          intro _
          exact h3
        · rw [if_neg h3]
          simp only [Phase.active.injEq, Option.some.injEq, exists_eq_left']
          constructor
          · intro _
            exact ⟨by omega, by omega⟩
          · intro _
            exact ⟨_, _, rfl, rfl⟩

theorem tickerDuration_of_small (n : Int) (h0 : 0 < n) (h1 : n ≤ 9223372036) :
    tickerDuration n = n * 1000000000 := by
  unfold tickerDuration wrapInt64
  omega

/-- C14 (the code at failing inputs): for a body that cannot be decoded, for an
object without `chart`, for `result` equal to `null` or to the empty array, and
for a close entry that is a string, `fetchStockData` does not return an error:
an unchecked type assertion or the index `[0]` panics. -/
theorem fetchStockData_malformed_panics :
    fetchStockData (fun _ => .response .undecodable) "AAA" = .panic ∧
      fetchStockData (fun _ => .response (.value (.map []))) "AAA" = .panic ∧
      fetchStockData
        (fun _ => .response (.value (.map [("chart", .map [("result", .nil)])]))) "AAA"
          = .panic ∧
      fetchStockData
        (fun _ => .response (.value (.map [("chart", .map [("result", .slice [])])]))) "AAA"
          = .panic ∧
      fetchStockData (fun _ => .response (chartBody [.float64 1, .string "n/a"])) "AAA"
          = .panic ∧
      getSignal (fetchStockData
        (fun _ => .response (.value (.map [("chart", .map [("result", .nil)])])))) "AAA"
          = .panic :=
  ⟨rfl, rfl, rfl, rfl, rfl, rfl⟩

theorem closePricesOf_well_formed (data chart resultMap indicators quoteMap :
    List (String × GoValue)) (results quotes closes : List GoValue)
    (hchart : data.lookup "chart" = some (.map chart))
    (hresult : chart.lookup "result" = some (.slice (.map resultMap :: results)))
    (hindicators : resultMap.lookup "indicators" = some (.map indicators))
    (hquote : indicators.lookup "quote" = some (.slice (.map quoteMap :: quotes)))
    (hclose : quoteMap.lookup "close" = some (.slice closes)) :
    closePricesOf data = some closes := by
  simp [closePricesOf, mapIndex, assertMap, assertSlice, hchart, hresult, hindicators, hquote,
    hclose]

theorem length_filterMap_id (entries : List (Option ℚ)) :
    (entries.filterMap id).length = entries.countP (fun e => e.isSome) := by
  induction entries with
  | nil => rfl
  | cons e entries ih =>
    cases e with
    | none => simpa using ih
    | some x => simpa using ih

/-- C15: for a well-formed provider response (an object whose
`chart.result[0].indicators.quote[0].close` is an array of numbers and nulls),
`fetchStockData` returns the close-price array with its null entries removed
and the numbers in their original order; its length is the number of non-null
entries. -/
theorem fetchStockData_drops_nulls (httpGet : String → HttpResult) (symbol : String)
    (data chart resultMap indicators quoteMap : List (String × GoValue))
    (results quotes : List GoValue) (entries : List (Option ℚ))
    (hget : httpGet (yahooFinanceAPI symbol) = .response (.value (.map data)))
    (hchart : data.lookup "chart" = some (.map chart))
    (hresult : chart.lookup "result" = some (.slice (.map resultMap :: results)))
    (hindicators : resultMap.lookup "indicators" = some (.map indicators))
    (hquote : indicators.lookup "quote" = some (.slice (.map quoteMap :: quotes)))
    (hclose : quoteMap.lookup "close" = some (.slice (entries.map closeEntry))) :
    fetchStockData httpGet symbol = .ok ⟨entries.filterMap id⟩ ∧
      (entries.filterMap id).length = entries.countP (fun e => e.isSome) := by
  constructor
  · have hc := closePricesOf_well_formed data chart resultMap indicators quoteMap results quotes
      (entries.map closeEntry) hchart hresult hindicators hquote hclose
    unfold fetchStockData
    rw [hget]
    simp only [decodeData, hc, appendLoop_closeEntry, List.nil_append]
  · exact length_filterMap_id entries

theorem fetchStockData_drops_nulls_witness :
    fetchStockData (fun _ => .response (chartBody [.float64 3, .nil, .float64 5])) "AAA"
        = .ok ⟨[3, 5]⟩ ∧
      ([some (3 : ℚ), none, some 5].filterMap id).length
        = [some (3 : ℚ), none, some 5].countP (fun e => e.isSome) :=
  fetchStockData_drops_nulls (fun _ => .response (chartBody [.float64 3, .nil, .float64 5]))
    "AAA" _ _ _ _ _ [] [] [some 3, none, some 5] rfl rfl rfl rfl rfl rfl

theorem tickLoop_write_fails (env : TickEnv) (i : Nat) (symbol : String)
    (rest : List String) (st : Emitter) (signal : Signal)
    (hs : getSignal (fetchStockData (env.httpGet i)) symbol = .ok signal)
    (hw : env.writeJSON i signal = false) :
    tickLoop env i (symbol :: rest) st
      = { st with fetched := st.fetched ++ [symbol], status := .returned } := by
  unfold tickLoop
  rw [hs]
  simp [hw]

theorem step_of_stopped (s : Session) (e : Event) (h : s.emitter.status ≠ .running) :
    (s.step e).emitter = s.emitter ∧
      ((s.step e).closed = true ↔ s.closed = true ∨ e = .readError) := by
  cases e with
  | tick env => simp [Session.step, h]
  | readMessage => simp [Session.step]
  | readError =>
    unfold Session.step
    by_cases hc : s.closed = true
    · simp [hc]
    · simp [hc, h]

theorem run_of_stopped (events : List Event) :
    ∀ s : Session, s.emitter.status ≠ .running →
      (s.run events).emitter = s.emitter ∧
        ((s.run events).closed = true ↔ s.closed = true ∨ Event.readError ∈ events) := by
  induction events with
  | nil => intro s _; simp [Session.run]
  | cons e events ih =>
    intro s h
    obtain ⟨h1, h2⟩ := step_of_stopped s e h
    obtain ⟨h3, h4⟩ := ih (s.step e) (by rw [h1]; exact h)
    have hrun : s.run (e :: events) = (s.step e).run events := rfl
    rw [hrun, h3, h4, h2, h1]
    refine ⟨rfl, ?_⟩
    rw [List.mem_cons]
    constructor
    · rintro ((h | h) | h)
      · exact Or.inl h
      · exact Or.inr (Or.inl h.symm)
      · exact Or.inr (Or.inr h)
    · rintro (h | h | h)
      · exact Or.inl (Or.inl h)
      · exact Or.inl (Or.inr h.symm)
      · exact Or.inr h

theorem brokenConn_tick (symbol : String) (rest : List String) (st : Emitter) :
    tickLoop brokenConnEnv 0 (symbol :: rest) st
      = { st with fetched := st.fetched ++ [symbol], status := .returned } := by
  obtain ⟨signal, hs, _⟩ := getSignal_ramp_ok (brokenConnEnv.httpGet 0) symbol rfl
  exact tickLoop_write_fails brokenConnEnv 0 symbol rest st signal hs rfl

/-- C16 (the claim as stated fails): after a tick whose first send fails, the
emitter goroutine has returned, yet the handler has not: the session is not
closed, and further ticks or received messages do not close it. -/
theorem send_failure_leaves_session_open :
    ((Session.start ["AAA", "BBB"]).step (.tick brokenConnEnv)).emitter.status = .returned ∧
      ((Session.start ["AAA", "BBB"]).step (.tick brokenConnEnv)).closed = false ∧
      (((Session.start ["AAA", "BBB"]).step (.tick brokenConnEnv)).run
        [.tick brokenConnEnv, .readMessage]).closed = false := by
  have ht : (Session.start ["AAA", "BBB"]).step (.tick brokenConnEnv)
      = { symbols := ["AAA", "BBB"], emitter := ⟨[], ["AAA"], .returned⟩, closed := false } := by
    simp [Session.step, Session.start, brokenConn_tick]
  rw [ht]
  simp [Session.run, Session.step]

/-- C16 (amended): if sending a signal fails during a tick, the emitter stops:
the failing iteration ends the tick, so no further symbol is fetched or emitted
in that tick, and whatever events follow nothing more is fetched or emitted.
The session is still open after that tick, and it is closed (timer stopped,
connection released) exactly once a read from the connection fails. -/
theorem send_failure_stops_emitter (s : Session) (env : TickEnv) (events : List Event)
    (hopen : s.closed = false) (hrun : s.emitter.status = .running)
    (hfail : (tickLoop env 0 s.symbols s.emitter).status = .returned) :
    ((s.step (.tick env)).run events).emitter.sent = (s.step (.tick env)).emitter.sent ∧
      ((s.step (.tick env)).run events).emitter.fetched
        = (s.step (.tick env)).emitter.fetched ∧
      (s.step (.tick env)).closed = false ∧
      (((s.step (.tick env)).run events).closed = true ↔ Event.readError ∈ events) ∧
      ∀ (i : Nat) (symbol : String) (rest : List String) (st : Emitter) (signal : Signal),
        getSignal (fetchStockData (env.httpGet i)) symbol = .ok signal →
        env.writeJSON i signal = false →
        tickLoop env i (symbol :: rest) st
          = { st with fetched := st.fetched ++ [symbol], status := .returned } := by
  have ht : s.step (.tick env) = { s with emitter := tickLoop env 0 s.symbols s.emitter } := by
    simp [Session.step, hopen, hrun]
  have hstopped : (s.step (.tick env)).emitter.status ≠ .running := by
    rw [ht]
    simp [hfail]
  have hclosed : (s.step (.tick env)).closed = false := by
    rw [ht]
    exact hopen
  obtain ⟨h1, h2⟩ := run_of_stopped events (s.step (.tick env)) hstopped
  refine ⟨by rw [h1], by rw [h1], hclosed, ?_, ?_⟩
  · rw [h2, hclosed]
    simp
  · intro i symbol rest st signal hs hw
    exact tickLoop_write_fails env i symbol rest st signal hs hw

theorem send_failure_stops_emitter_witness :
    (Session.start ["AAA", "BBB"]).closed = false ∧
      (Session.start ["AAA", "BBB"]).emitter.status = .running ∧
      (tickLoop brokenConnEnv 0 ["AAA", "BBB"] ⟨[], [], .running⟩).status = .returned ∧
      ((((Session.start ["AAA", "BBB"]).step (.tick brokenConnEnv)).run
        [.tick brokenConnEnv, .readMessage, .readError]).closed = true ↔
          Event.readError ∈ [Event.tick brokenConnEnv, .readMessage, .readError]) :=
  ⟨rfl, rfl, by rw [brokenConn_tick],
    (send_failure_stops_emitter (Session.start ["AAA", "BBB"]) brokenConnEnv
      [.tick brokenConnEnv, .readMessage, .readError] rfl rfl
      (by
        show (tickLoop brokenConnEnv 0 ["AAA", "BBB"] ⟨[], [], .running⟩).status = .returned
        rw [brokenConn_tick])).2.2.2.1⟩

/-! ## The strategy: the near-level flag and the crossover -/

theorem calculateFibonacci_negative : calculateFibonacci [-1000, 0] = some negativeLevels := by
  simp [calculateFibonacci, index, scanStep, negativeLevels]
  norm_num

theorem nearLevel_negativeLevels : nearLevel (-10) negativeLevels = true := by
  simp [nearLevel, nearLoop, nearCheck_eq, negativeLevels]
  norm_num

theorem specNearLevel_negativeLevels : specNearLevel (-10) negativeLevels = false := by
  simp [specNearLevel, negativeLevels]
  norm_num [abs_of_neg, abs_of_pos]

theorem nearCheck_of_pos (currentPrice level : ℚ) (h : 0 < level) :
    nearCheck currentPrice level (1 / 100) = true ↔
      level ≠ 0 ∧ |currentPrice - level| ≤ 1 / 100 * |level| := by
  rw [nearCheck_eq, if_neg h.ne.symm, decide_eq_true_iff, div_le_iff₀ h, abs_of_pos h]
  simp [h.ne.symm]

theorem nearLoop_iff (currentPrice threshold : ℚ) (levels : List ℚ) :
    nearLoop currentPrice threshold levels = true ↔
      ∃ level ∈ levels, nearCheck currentPrice level threshold = true := by
  induction levels with
  | nil => simp [nearLoop]
  | cons level rest ih =>
    unfold nearLoop
    by_cases hc : nearCheck currentPrice level threshold = true
    · simp [hc]
    · simp [hc, ih]

/-- C17 (the code at the failing input): with `SMA50 = 100` and the interior
level `Level236 = -1` (the other interior levels 200), and with `SMA50 = -10`
and the levels of a series between `-1000` and `0`, the flag is true although
`SMA50` is within 1% of no interior level: the quotient by a negative level is
not positive, hence below the threshold. -/
theorem nearLevel_true_for_negative_level :
    nearLevel 100 ⟨0, -1, 200, 200, 200, 200, 0⟩ = true ∧
      (¬ ∃ level ∈ [(-1 : ℚ), 200, 200, 200, 200],
        level ≠ 0 ∧ |100 - level| ≤ 1 / 100 * |level|) ∧
      nearLevel (-10) negativeLevels = true ∧
      ¬ ∃ level ∈ [negativeLevels.Level236, negativeLevels.Level382, negativeLevels.Level500,
          negativeLevels.Level618, negativeLevels.Level764],
        level ≠ 0 ∧ |(-10 : ℚ) - level| ≤ 1 / 100 * |level| := by
  refine ⟨?_, ?_, nearLevel_negativeLevels, ?_⟩
  · simp [nearLevel, nearLoop, nearCheck_eq]
    norm_num
  · simp
    norm_num [abs_of_neg, abs_of_pos]
  · simp [negativeLevels]
    norm_num [abs_of_neg, abs_of_pos]

theorem nearLevel_iff_within_one_percent (sma50 : ℚ) (fibonacci : FibonacciRetracements)
    (h : ∀ level ∈ [fibonacci.Level236, fibonacci.Level382, fibonacci.Level500,
      fibonacci.Level618, fibonacci.Level764], 0 < level) :
    (nearLevel sma50 fibonacci = true ↔
        ∃ level ∈ [fibonacci.Level236, fibonacci.Level382, fibonacci.Level500,
          fibonacci.Level618, fibonacci.Level764],
          level ≠ 0 ∧ |sma50 - level| ≤ 1 / 100 * |level|) ∧
      ∀ a b : ℚ,
        nearLevel sma50 { fibonacci with Level0 := a, Level100 := b }
          = nearLevel sma50 fibonacci := by
  refine ⟨?_, fun _ _ => rfl⟩
  unfold nearLevel
  rw [nearLoop_iff]
  constructor
  · rintro ⟨level, hm, hc⟩
    exact ⟨level, hm, (nearCheck_of_pos sma50 level (h level hm)).mp hc⟩
  · rintro ⟨level, hm, hc⟩
    exact ⟨level, hm, (nearCheck_of_pos sma50 level (h level hm)).mpr hc⟩

theorem nearLevel_eq_specNearLevel (sma50 : ℚ) (fibonacci : FibonacciRetracements)
    (h : ∀ level ∈ [fibonacci.Level236, fibonacci.Level382, fibonacci.Level500,
      fibonacci.Level618, fibonacci.Level764], 0 < level) :
    nearLevel sma50 fibonacci = specNearLevel sma50 fibonacci := by
  have hiff := (nearLevel_iff_within_one_percent sma50 fibonacci h).1
  unfold specNearLevel
  cases hn : nearLevel sma50 fibonacci with
  | true => exact (decide_eq_true (hiff.mp hn)).symm
  | false =>
    have hnot : ¬ nearLevel sma50 fibonacci = true := by simp [hn]
    exact (decide_eq_false (fun hex => hnot (hiff.mpr hex))).symm

theorem simpleStrategy_eq_spec_of_positive_levels (sma50 sma200 : ℚ)
    (fibonacci : FibonacciRetracements)
    (h : ∀ level ∈ [fibonacci.Level236, fibonacci.Level382, fibonacci.Level500,
      fibonacci.Level618, fibonacci.Level764], 0 < level) :
    simpleStrategy sma50 sma200 fibonacci
      = specDecide sma50 sma200 (specNearLevel sma50 fibonacci) := by
  rw [← nearLevel_eq_specNearLevel sma50 fibonacci h]
  have hf : predictionFactor = 5 / 1440 := by norm_num [predictionFactor]
  simp only [simpleStrategy, specDecide, predictedPrice, hf]

theorem predictedPrice_up (sma50 sma200 : ℚ) (h : 0 < sma50) (hgt : sma200 < sma50) :
    predictedPrice sma50 sma200 = sma50 * (1 + 5 / 1440) ∧
      sma50 < predictedPrice sma50 sma200 := by
  have hp : predictedPrice sma50 sma200 = sma50 * (1 + 5 / 1440) := by
    unfold predictedPrice predictionFactor
    rw [if_pos hgt]
    norm_num
  refine ⟨hp, ?_⟩
  rw [hp]
  linarith

theorem predictedPrice_down (sma50 sma200 : ℚ) (h : 0 < sma50) (hlt : sma50 < sma200) :
    predictedPrice sma50 sma200 = sma50 * (1 - 5 / 1440) ∧
      predictedPrice sma50 sma200 < sma50 := by
  have hp : predictedPrice sma50 sma200 = sma50 * (1 - 5 / 1440) := by
    unfold predictedPrice predictionFactor
    rw [if_neg (not_lt.mpr hlt.le), if_pos hlt]
    norm_num
  refine ⟨hp, ?_⟩
  rw [hp]
  linarith

theorem predictedPrice_flat (sma50 : ℚ) : predictedPrice sma50 sma50 = sma50 := by
  simp [predictedPrice]

/-- C19: for `SMA50 > 0` the action of `simpleStrategy` follows the crossover:
it is `buy` exactly when `SMA50 > SMA200` and `nearLevel`, `sell` exactly when
`SMA50 < SMA200` and `nearLevel`, and `hold` in every other case; a buy target
is strictly above `SMA50` and a sell target strictly below it. -/
theorem simpleStrategy_crossover (sma50 sma200 : ℚ) (fibonacci : FibonacciRetracements)
    (h : 0 < sma50) :
    ((simpleStrategy sma50 sma200 fibonacci).1 = "buy" ↔
        sma50 > sma200 ∧ nearLevel sma50 fibonacci = true) ∧
      ((simpleStrategy sma50 sma200 fibonacci).1 = "sell" ↔
        sma50 < sma200 ∧ nearLevel sma50 fibonacci = true) ∧
      ((simpleStrategy sma50 sma200 fibonacci).1 = "hold" ↔
        ¬ (sma50 > sma200 ∧ nearLevel sma50 fibonacci = true) ∧
          ¬ (sma50 < sma200 ∧ nearLevel sma50 fibonacci = true)) ∧
      ((simpleStrategy sma50 sma200 fibonacci).1 = "buy" →
        (simpleStrategy sma50 sma200 fibonacci).2 > sma50) ∧
      ((simpleStrategy sma50 sma200 fibonacci).1 = "sell" →
        (simpleStrategy sma50 sma200 fibonacci).2 < sma50) := by
  have hbs : ("buy" : String) ≠ "sell" := by decide
  have hbh : ("buy" : String) ≠ "hold" := by decide
  have hsh : ("sell" : String) ≠ "hold" := by decide
  cases hn : nearLevel sma50 fibonacci with
  | false =>
    have hs : simpleStrategy sma50 sma200 fibonacci = ("hold", sma50) := by
      simp [simpleStrategy, hn]
    rw [hs]
    simp [hbh.symm, hsh.symm]
  | true =>
    rcases lt_trichotomy sma50 sma200 with hlt | heq | hgt
    · obtain ⟨hp, hdown⟩ := predictedPrice_down sma50 sma200 h hlt
      have hs : simpleStrategy sma50 sma200 fibonacci
          = ("sell", predictedPrice sma50 sma200 * (95 / 100)) := by
        simp [simpleStrategy, hn, hdown, not_lt.mpr hdown.le]
      rw [hs]
      simp only [hbs.symm, hsh, hlt, not_lt.mpr hlt.le, gt_iff_lt, false_and, and_self,
        not_false_eq_true, not_true_eq_false, and_false, iff_self, true_and, false_implies,
        true_implies, hp]
      nlinarith
    · subst heq
      have hs : simpleStrategy sma50 sma50 fibonacci = ("hold", sma50) := by
        simp [simpleStrategy, predictedPrice_flat]
      rw [hs]
      simp [hbh.symm, hsh.symm]
    · obtain ⟨hp, hup⟩ := predictedPrice_up sma50 sma200 h hgt
      have hs : simpleStrategy sma50 sma200 fibonacci
          = ("buy", predictedPrice sma50 sma200 * (105 / 100)) := by
        simp [simpleStrategy, hn, hup]
      rw [hs]
      simp only [hbs, hbh, hgt, not_lt.mpr hgt.le, gt_iff_lt, false_and, and_self,
        not_false_eq_true, not_true_eq_false, and_false, iff_self, true_and, false_implies,
        true_implies, hp]
      exact ⟨by nlinarith, trivial⟩

theorem simpleStrategy_crossover_witness :
    (0 : ℚ) < 100 ∧
      ((simpleStrategy 100 90 ⟨0, 100, 0, 0, 0, 0, 0⟩).1 = "buy" ↔
        (100 : ℚ) > 90 ∧ nearLevel 100 ⟨0, 100, 0, 0, 0, 0, 0⟩ = true) :=
  ⟨by norm_num, (simpleStrategy_crossover 100 90 ⟨0, 100, 0, 0, 0, 0, 0⟩ (by norm_num)).1⟩

theorem index_isSome (s : List ℚ) (i : Int) (h0 : 0 ≤ i) (h1 : i < (s.length : Int)) :
    (index s i).isSome = true := by
  have e : i = ((i.toNat : Nat) : Int) := (Int.toNat_of_nonneg h0).symm
  have hlt : i.toNat < s.length := by omega
  rw [e, index_of_lt s i.toNat hlt]
  rfl

/-- C20: for a series of length at least 200, every index read while a signal
is built is in range: the indices `len-50 .. len-1` and `len-200 .. len-1` of the
two loops of `calculateSMA`, `closePrices[0]` in `calculateFibonacci` and
`Close[len-1]` in `getSignal`; so `calculateSMA` and `calculateFibonacci` return
and `getSignal` returns a signal for every fetch that yields the series. -/
theorem getSignal_total_of_length_ge (stockData : StockData)
    (h : 200 ≤ stockData.Close.length) :
    (∀ i : Int, (stockData.Close.length : Int) - 50 ≤ i → i < (stockData.Close.length : Int) →
        (index stockData.Close i).isSome = true) ∧
      (∀ i : Int, (stockData.Close.length : Int) - 200 ≤ i →
        i < (stockData.Close.length : Int) → (index stockData.Close i).isSome = true) ∧
      (index stockData.Close 0).isSome = true ∧
      (index stockData.Close ((stockData.Close.length : Int) - 1)).isSome = true ∧
      (calculateSMA stockData).isSome = true ∧
      (calculateFibonacci stockData.Close).isSome = true ∧
      ∀ (fetchStockData : String → Outcome StockData) (symbol : String),
        fetchStockData symbol = .ok stockData →
        ∃ signal : Signal, getSignal fetchStockData symbol = .ok signal := by
  refine ⟨?_, ?_, ?_, ?_, ?_, ?_, ?_⟩
  · intro i hlo hhi
    exact index_isSome _ i (by omega) hhi
  · intro i hlo hhi
    exact index_isSome _ i (by omega) hhi
  · exact index_isSome _ 0 (le_refl 0) (by omega)
  · exact index_isSome _ _ (by omega) (by omega)
  · rw [calculateSMA_of_length_ge stockData h]
    rfl
  · rw [calculateFibonacci_of_length_pos stockData.Close (by omega)]
    rfl
  · intro fetchStockData symbol hf
    obtain ⟨signal, hs, _⟩ := getSignal_ok_of_length_ge fetchStockData symbol stockData hf h
    exact ⟨signal, hs⟩

theorem getSignal_total_of_length_ge_witness :
    200 ≤ (StockData.mk ramp).Close.length ∧
      (calculateSMA ⟨ramp⟩).isSome = true ∧
      (calculateFibonacci ramp).isSome = true ∧
      ∃ signal : Signal, getSignal sampleFetch "AAA" = .ok signal :=
  ⟨length_ramp.ge, (getSignal_total_of_length_ge ⟨ramp⟩ length_ramp.ge).2.2.2.2.1,
    (getSignal_total_of_length_ge ⟨ramp⟩ length_ramp.ge).2.2.2.2.2.1,
    (getSignal_total_of_length_ge ⟨ramp⟩ length_ramp.ge).2.2.2.2.2.2 sampleFetch "AAA" rfl⟩

/-! ## Signed zeros, negative levels and `float64` sums -/

/-- C1 (the code at the failing input): for the levels that `calculateFibonacci`
returns on a series with minimum `-1000` and maximum `0`, and `SMA50 = -10`,
`SMA200 = -20`, no interior level is within 1% of `SMA50`, so the
specification's decision is `(hold, -10)`; the code's flag is true and
`simpleStrategy` returns `sell`. -/
theorem simpleStrategy_sells_where_spec_holds :
    calculateFibonacci [-1000, 0] = some negativeLevels ∧
      specNearLevel (-10) negativeLevels = false ∧
      specDecide (-10) (-20) (specNearLevel (-10) negativeLevels) = ("hold", -10) ∧
      nearLevel (-10) negativeLevels = true ∧
      simpleStrategy (-10) (-20) negativeLevels
        = ("sell", -10 * (1 + 5 / 1440) * (95 / 100)) := by
  refine ⟨calculateFibonacci_negative, specNearLevel_negativeLevels, ?_,
    nearLevel_negativeLevels, ?_⟩
  · rw [specNearLevel_negativeLevels]
    simp [specDecide]
  · simp only [simpleStrategy, nearLevel_negativeLevels, predictedPrice, predictionFactor]
    norm_num

theorem nearLoopSigned_positive (currentPrice threshold : ℚ) (levels : List ℚ) :
    nearLoopSigned currentPrice threshold (levels.map (fun level => (level, false)))
      = nearLoop currentPrice threshold levels := by
  induction levels with
  | nil => rfl
  | cons level rest ih =>
    simp only [List.map_cons, nearLoopSigned, nearLoop, ih]
    rfl

theorem simpleStrategySigned_positive (sma50 sma200 : ℚ) (fibonacci : FibonacciRetracements) :
    simpleStrategySigned sma50 sma200 fibonacci ⟨false, false, false, false, false⟩
      = simpleStrategy sma50 sma200 fibonacci := by
  have hnear : nearLevelSigned sma50 fibonacci ⟨false, false, false, false, false⟩
      = nearLevel sma50 fibonacci :=
    nearLoopSigned_positive sma50 (1 / 100)
      [fibonacci.Level236, fibonacci.Level382, fibonacci.Level500, fibonacci.Level618,
        fibonacci.Level764]
  simp only [simpleStrategySigned, simpleStrategy, hnear]

/-- C11 (the code at the failing input): in a tick over `AAA, BBB` in which the
provider has no result for `AAA` (`chart.result` is `null`), `BBB` has a full
history and every write succeeds, `getSignal` panics for `AAA`: nothing is
emitted, `BBB` is never fetched, although its signal was there to be sent. -/
theorem tick_aborts_on_no_result_response :
    (∀ i signal, noResultEnv.writeJSON i signal = true) ∧
      getSignal (fetchStockData (noResultEnv.httpGet 0)) "AAA" = .panic ∧
      (∃ signal : Signal, signalAt noResultEnv 1 "BBB" = some signal) ∧
      (tickLoop noResultEnv 0 ["AAA", "BBB"] ⟨[], [], .running⟩).sent = [] ∧
      (tickLoop noResultEnv 0 ["AAA", "BBB"] ⟨[], [], .running⟩).fetched = ["AAA"] ∧
      (tickLoop noResultEnv 0 ["AAA", "BBB"] ⟨[], [], .running⟩).status = .panicked := by
  have hA : getSignal (fetchStockData (noResultEnv.httpGet 0)) "AAA" = .panic := rfl
  obtain ⟨signal, hs, _⟩ := getSignal_ramp_ok (noResultEnv.httpGet 1) "BBB" rfl
  have ht : tickLoop noResultEnv 0 ["AAA", "BBB"] ⟨[], [], .running⟩
      = ⟨[], ["AAA"], .panicked⟩ := by
    unfold tickLoop
    rw [hA]
    rfl
  refine ⟨fun _ _ => rfl, hA, ⟨signal, ?_⟩, ?_, ?_, ?_⟩
  · simp [signalAt, hs]
  · rw [ht]
  · rw [ht]
  · rw [ht]

end StockSignal
